import Mathlib

/-!
# Verification of `src/blade/builtin_tools.py` (blade-build)

A shallow embedding of the artifact-composition functions of
`builtin_tools.py`: the generic package composer (`generate_package`,
`generate_zip_package`, `generate_tar_package`, `archive_package_sources`),
the JVM composer (`generate_one_jar`), the interpreted-runtime composer
(`generate_python_binary` and its `_pybin_add_*` helpers), and the command
line parser (`parse_command_line`).

Modelling conventions:
* Python byte/str values are modelled as Lean `String` (in this toolchain a
  `String` is a structure holding a `List Char`).
* The file system is an explicit parameter `fs : String → String` giving each
  path's content, `mtime : String → Nat` giving each input file's stored
  timestamp.
* `zipfile.ZipFile.writestr` stamps the entry with the current local time;
  runs are therefore parameterised by a clock reading `now : Nat`.  An archive
  is modelled as the list of written entries `(name, content, mtime)` in write
  order, and the byte stream of an archive as an explicit serialization of
  that list (the real zip byte stream is a function of exactly these fields in
  this order).
* Python exceptions (`assert`, unrecognized input) are modelled with `Except`.
* `os.path` functions operate on `'/'`-separated relative paths, the only
  paths that reach them here (on absolute paths the Python loop in
  `_update_init_py_dirs` does not terminate, since `os.path.dirname '/' = '/'`).
-/

namespace BladeBuiltinTools

/-! ## Python string primitives used by the source -/

/-- `str.split(sep)` for a single-character separator: splits on every
occurrence, keeping empty pieces; the result is always non-empty. -/
def splitOnSep (sep : Char) : List Char → List (List Char)
  | [] => [[]]
  | c :: cs =>
    match splitOnSep sep cs with
    | [] => if c = sep then [[], []] else [[c]]
    | h :: t => if c = sep then [] :: h :: t else (c :: h) :: t

/-- `str.split(sep)` on strings. -/
def pySplit (s : String) (sep : Char) : List String :=
  (splitOnSep sep s.data).map String.mk

/-- `str.startswith(pre)`. -/
def startswith (s pre : String) : Bool := pre.data.isPrefixOf s.data

/-- `str.endswith(suf)`. -/
def endswith (s suf : String) : Bool := suf.data.isSuffixOf s.data

/-- Occurrence of `sub` as a contiguous run at any offset of a list. -/
def listHasRun (sub : List Char) : List Char → Bool
  | [] => sub.isEmpty
  | c :: cs => sub.isPrefixOf (c :: cs) || listHasRun sub cs

/-- Python's `sub in s` substring test. -/
def containsSub (s sub : String) : Bool := listHasRun sub.data s.data

/-- `str.lower()`. -/
def pyLower (s : String) : String := ⟨s.data.map Char.toLower⟩

/-- `str.upper()`. -/
def pyUpper (s : String) : String := ⟨s.data.map Char.toUpper⟩

/-- Split a character list at the first occurrence of `c`:
`some (before, after)` when present, `none` otherwise.  This models
`s.find(c)` followed by the slices `s[..pos]` / `s[pos+1..]`. -/
def splitFirst (c : Char) : List Char → Option (List Char × List Char)
  | [] => none
  | x :: xs =>
    if x = c then some ([], xs)
    else (splitFirst c xs).map (fun p => (x :: p.1, p.2))

/-! ## `os.path` on `'/'`-separated relative paths

Directories recorded by the bookkeeping of `_update_init_py_dirs` are
represented by their component lists (`"a/b"` as `["a", "b"]`);
`os.path.dirname` drops the last component and `os.path.basename` is the last
component. -/

abbrev Path := List String

/-- The `'/'`-components of a path string. -/
def pathComponents (p : String) : Path := pySplit p '/'

/-- Reassemble a component list into a path string. -/
def joinPath (p : Path) : String := String.intercalate "/" p

/-- `os.path.basename` of a relative path. -/
def pyBasename (p : String) : String := (pathComponents p).getLastD ""

/-- Fuel-indexed form of the `while dir:` loop of `_update_init_py_dirs`
(`os.path.dirname` drops exactly one component per iteration, so `p.length`
fuel always suffices; an explicit index keeps the definition reducible by
evaluation). -/
def dirAncestorsAux : Nat → Path → List Path
  | 0, _ => []
  | _ + 1, [] => []
  | f + 1, d :: ds => (d :: ds) :: dirAncestorsAux f (d :: ds).dropLast

/-- The successive non-empty values taken by `dir` in the loop
`while dir: dirs.add(dir); dir = os.path.dirname(dir)` of
`_update_init_py_dirs`, as component lists: the directory itself and every
ancestor. -/
def dirAncestors (p : Path) : List Path := dirAncestorsAux p.length p

/-- `os.path.relpath(path, start)` for the cases arising in
`_pybin_add_pylib`: `start` is empty (current directory) or an ancestor of
`path`, and the result drops `start`'s components. -/
def relpath (path start : String) : String :=
  if start = "" then path
  else joinPath ((pathComponents path).drop (pathComponents start).length)

/-! ## `fnmatch` and exclusion filtering -/

/-- Fuel-indexed core of the glob matcher (each step shrinks the combined
length of pattern and candidate, so that much fuel always suffices; the
explicit index keeps the definition reducible by evaluation). -/
def globMatchAux : Nat → List Char → List Char → Bool
  | 0, _, _ => false
  | _ + 1, [], [] => true
  | _ + 1, [], _ :: _ => false
  | f + 1, '*' :: ps, [] => globMatchAux f ps []
  | f + 1, '*' :: ps, c :: cs =>
    globMatchAux f ps (c :: cs) || globMatchAux f ('*' :: ps) cs
  | f + 1, '?' :: ps, _ :: cs => globMatchAux f ps cs
  | f + 1, p :: ps, c :: cs => p = c && globMatchAux f ps cs
  | _ + 1, _ :: _, [] => false

/-- The `fnmatch.fnmatch` glob matcher, restricted to the `*` (any run) and
`?` (any single character) wildcards; other characters match literally.
First argument is the pattern, second the candidate. -/
def globMatch (ps cs : List Char) : Bool :=
  globMatchAux (ps.length + cs.length + 1) ps cs

/-- `fnmatch.fnmatch(filename, pattern)` on strings. -/
def fnmatch (filename pattern : String) : Bool :=
  globMatch pattern.data filename.data

/-- `_is_python_excluded_path`: a name is excluded when it matches any of the
exclusion patterns. -/
def is_python_excluded_path (filename : String) (exclusions : List String) : Bool :=
  exclusions.any (fun exclusion => fnmatch filename exclusion)

/-! ## Archives

An archive under construction is the list of its written entries in write
order.  `zipfile.ZipFile.write(path, arcname)` stores the file's content with
the file's own timestamp; `writestr(name, data)` stores `data` stamped with
the current time (`now`). -/

/-- One archive entry: destination name, content bytes and stored timestamp. -/
structure Entry where
  name : String
  content : String
  mtime : Nat
deriving DecidableEq, Repr

/-- Forget the timestamps: the (name, content) sequence of an archive. -/
def stripEntries (l : List Entry) : List (String × String) :=
  l.map (fun e => (e.name, e.content))

/-- The byte stream of a finalized archive, as a function of its entry
sequence.  The real zip byte stream records exactly the name, content and
timestamp of each entry in write order; this serialization stands in for that
encoding. -/
def serializeArchive (l : List Entry) : String :=
  l.foldl (fun acc e =>
    acc ++ e.name ++ "\x00" ++ e.content ++ "\x00" ++ toString e.mtime ++ "\x00") ""

/-- `zipfile.ZipFile.read(name)` on an open input archive given as a
`(name, content)` list: Python's `ZipFile` resolves a name through its
name-to-info dictionary, so a duplicated name yields the *last* entry. -/
def zip_read (entries : List (String × String)) (name : String) : String :=
  ((entries.filter (fun e => e.1 = name)).getLastD ("", "")).2

/-- `zip_read` over built entries (used to state what a by-name reader sees in
a composed output). -/
def zip_read_out (l : List Entry) (name : String) : String :=
  zip_read (stripEntries l) name

/-! ## `parse_command_line` -/

/-- The classification step of `parse_command_line` for one argument:
`some (name, value)` when the argument starts with `--` and contains `=`
(`name` is the text between `--` and the first `=`, `value` the rest),
`none` when it is treated as a positional argument. -/
def parse_arg_option (arg : String) : Option (String × String) :=
  if startswith arg "--" then
    match splitFirst '=' arg.data with
    | none => none
    | some (pre, post) => some (⟨pre.drop 2⟩, ⟨post⟩)
  else none

/-- Python `dict` used for the options, modelled by its mapping: assignment
`options[name] = value` overwrites. -/
def dictSet (opts : String → Option String) (name value : String) :
    String → Option String :=
  fun k => if k = name then some value else opts k

/-- `parse_command_line`'s loop over `argv`, accumulating options and
positional arguments. -/
def parse_command_line_loop :
    List String → (String → Option String) → List String →
    (String → Option String) × List String
  | [], options, args => (options, args)
  | arg :: rest, options, args =>
    match parse_arg_option arg with
    | some nv => parse_command_line_loop rest (dictSet options nv.1 nv.2) args
    | none => parse_command_line_loop rest options (args ++ [arg])

/-- `parse_command_line(argv)`. -/
def parse_command_line (argv : List String) :
    (String → Option String) × List String :=
  parse_command_line_loop argv (fun _ => none) []

/-! ## Generic package composer

`archive_package_sources(package, sources, destinations)` writes each source
at its destination and collects one manifest line `"<digest> <destination>"`
per source.  The digest function `blade_util.md5sum_file` is modelled as a
parameter `md5 : String → String` applied to a file's content. -/

/-- `archive_package_sources`: returns the written entries and the manifest
lines, in order.  The loop indexes `destinations[i]` with `i` ranging over
`sources`; every caller passes lists of equal length (enforced by the
`assert` in `generate_package`), modelled here by pairwise recursion. -/
def archive_package_sources (md5 fs : String → String) (mtime : String → Nat) :
    List String → List String → List Entry × List String
  | s :: ss, d :: ds =>
    let rest := archive_package_sources md5 fs mtime ss ds
    (⟨d, fs s, mtime s⟩ :: rest.1, (md5 (fs s) ++ " " ++ d) :: rest.2)
  | _, _ => ([], [])

/-- `generate_zip_package`: the source entries followed by a trailing
`MANIFEST.TXT` entry holding the newline-joined manifest plus one final
newline, stamped with the current time (`zipfile.writestr`). -/
def generate_zip_package (md5 fs : String → String) (mtime : String → Nat)
    (now : Nat) (sources destinations : List String) : List Entry :=
  let sm := archive_package_sources md5 fs mtime sources destinations
  sm.1 ++ [⟨"MANIFEST.TXT", String.intercalate "\n" sm.2 ++ "\n", now⟩]

/-- `generate_tar_package`: the source entries followed by a trailing
`MANIFEST.TXT` entry.  The manifest is first written to a sibling file with
`'\n'.join(manifest) + '\n\n'` — note the double newline — and that file
(created during the run, hence stamped `now`) is added as the final entry.
The compression mode selected by `suffix` does not change the entry
sequence. -/
def generate_tar_package (md5 fs : String → String) (mtime : String → Nat)
    (now : Nat) (sources destinations : List String) : List Entry :=
  let sm := archive_package_sources md5 fs mtime sources destinations
  sm.1 ++ [⟨"MANIFEST.TXT", String.intercalate "\n" sm.2 ++ "\n\n", now⟩]

/-- The suffix search of `generate_package` over the keys of
`_TAR_WRITE_MODES` (at most one key can match a given path). -/
def tar_suffix (path : String) : Option String :=
  if endswith path "tar" then some "tar"
  else if endswith path "tar.gz" then some "tar.gz"
  else if endswith path "tgz" then some "tgz"
  else if endswith path "tar.bz2" then some "tar.bz2"
  else if endswith path "tbz" then some "tbz"
  else none

/-- `generate_package(args)`: `args[0]` is the output path; the remainder must
have even length (`assert len(manifest) % 2 == 0`), its first half being the
sources and second half the destinations.  A path matching no container
suffix leaves `suffix` unbound in the source (a `NameError`), modelled as an
error. -/
def generate_package (md5 fs : String → String) (mtime : String → Nat)
    (now : Nat) (args : List String) : Except String (List Entry) :=
  match args with
  | [] => .error "IndexError: args[0]"
  | path :: manifest =>
    if manifest.length % 2 ≠ 0 then
      .error "AssertionError: len(manifest) % 2 == 0"
    else
      let middle := manifest.length / 2
      let sources := manifest.take middle
      let destinations := manifest.drop middle
      if endswith path ".zip" then
        .ok (generate_zip_package md5 fs mtime now sources destinations)
      else
        match tar_suffix path with
        | some _ => .ok (generate_tar_package md5 fs mtime now sources destinations)
        | none => .error "NameError: suffix"

/-! ## JVM composer (`generate_one_jar`) -/

/-- An input jar: its path on disk, its raw bytes (stored nested) and its
entry list (read through `zipfile`). -/
structure JarFile where
  name : String
  bytes : String
  entries : List (String × String)
deriving DecidableEq, Repr

/-- The loop of step 1 of `generate_one_jar` over the boot jar's name list:
copy every entry except the manifest, recording each copied name in
`jar_path_set` (first component of the accumulator: written entries; second:
the claimed-name set). -/
def onejar_loader_loop (now : Nat) (jar : JarFile) :
    List String → List Entry × List String → List Entry × List String
  | [], acc => acc
  | name :: rest, acc =>
    if ¬ endswith (pyLower name) "manifest.mf" then
      onejar_loader_loop now jar rest
        (acc.1 ++ [⟨name, zip_read jar.entries name, now⟩], name :: acc.2)
    else
      onejar_loader_loop now jar rest acc

/-- Step 1 of `generate_one_jar`. -/
def onejar_loader (now : Nat) (bootjar : JarFile) : List Entry × List String :=
  onejar_loader_loop now bootjar (bootjar.entries.map Prod.fst) ([], [])

/-- The resource-flattening loop over one jar's name list: skip compiled
classes and `META-INF` entries, then first-writer-wins through
`jar_path_set` (first component of the accumulator: the claimed-name set;
second: written entries). -/
def onejar_flatten_loop (now : Nat) (jar : JarFile) :
    List String → List String × List Entry → List String × List Entry
  | [], acc => acc
  | name :: rest, acc =>
    if endswith name ".class" || startswith (pyUpper name) "META-INF" then
      onejar_flatten_loop now jar rest acc
    else if name ∈ acc.1 then
      onejar_flatten_loop now jar rest acc
    else
      onejar_flatten_loop now jar rest
        (name :: acc.1, acc.2 ++ [⟨name, zip_read jar.entries name, now⟩])

/-- Flattening of one jar's resources into the output root. -/
def onejar_flatten_one (now : Nat) (jar : JarFile)
    (acc : List String × List Entry) : List String × List Entry :=
  onejar_flatten_loop now jar (jar.entries.map Prod.fst) acc

/-- Step 3 of `generate_one_jar`: flatten resources of the main jar then each
dependency, in order. -/
def onejar_flatten (now : Nat) :
    List JarFile → List String × List Entry → List String × List Entry
  | [], acc => acc
  | jar :: rest, acc => onejar_flatten now rest (onejar_flatten_one now jar acc)

/-- The generated `META-INF/MANIFEST.MF` content (ends with a blank line). -/
def onejar_manifest (main_class : String) : String :=
  "Manifest-Version: 1.0\nMain-Class: com.simontuffs.onejar.Boot\nOne-Jar-Main-Class: "
    ++ main_class ++ "\n\n"

/-- `generate_one_jar(onejar, main_class, bootjar, args)` with
`args = main_jar :: jars`: loader entries, the nested `main/`- and
`lib/`-prefixed raw jars, the flattened resources, then the manifest. -/
def generate_one_jar (mtime : String → Nat) (now : Nat) (main_class : String)
    (bootjar main_jar : JarFile) (jars : List JarFile) : List Entry :=
  let loader := onejar_loader now bootjar
  let nested :=
    ⟨"main/" ++ pyBasename main_jar.name, main_jar.bytes, mtime main_jar.name⟩ ::
      jars.map (fun dep =>
        (⟨"lib/" ++ pyBasename dep.name, dep.bytes, mtime dep.name⟩ : Entry))
  let flat := onejar_flatten now (main_jar :: jars) (loader.2, [])
  loader.1 ++ nested ++ flat.2 ++
    [⟨"META-INF/MANIFEST.MF", onejar_manifest main_class, now⟩]

/-! ## Interpreted-runtime composer (`generate_python_binary`) -/

/-- Insertion into a Python `set`, modelled as a duplicate-free list (new
elements appended; the sets are only queried for membership and sorted). -/
def insertSet (x : Path) (l : List Path) : List Path :=
  if x ∈ l then l else l ++ [x]

/-- The mutable state during composition: the written archive entries, the
set `dirs` of directories recorded as holding entries, and the set
`dirs_with_init_py` of directories whose namespace marker was written. -/
structure PybinState where
  entries : List Entry
  dirs : List Path
  markers : List Path
deriving DecidableEq, Repr

/-- Insert each element of a list into a set (the `while` loop's repeated
`dirs.add(dir)`). -/
def insertAll : List Path → List Path → List Path
  | [], ds => ds
  | d :: rest, ds => insertAll rest (insertSet d ds)

/-- `_update_init_py_dirs(arcname, dirs, dirs_with_init_py)`: if the entry's
basename is `__init__.py` record its directory in `dirs_with_init_py`; then
record the directory and every ancestor in `dirs`. -/
def update_init_py_dirs (arcname : String) (dirs markers : List Path) :
    List Path × List Path :=
  let comps := pathComponents arcname
  let dir := comps.dropLast
  let markers' :=
    if comps.getLastD "" = "__init__.py" then insertSet dir markers else markers
  (insertAll (dirAncestors dir) dirs, markers')

/-- `_pybin_add_pylib`: for each `(path, digest)` pair of the descriptor,
compute the arcname relative to the descriptor's `base_dir`; unless excluded,
update the directory bookkeeping and write the file's content at the
arcname. -/
def pybin_add_pylib (fs : String → String) (mtime : String → Nat)
    (base_dir : String) (exclusions : List String) :
    List (String × String) → PybinState → PybinState
  | [], st => st
  | sd :: rest, st =>
    let arcname := relpath sd.1 base_dir
    if is_python_excluded_path arcname exclusions then
      pybin_add_pylib fs mtime base_dir exclusions rest st
    else
      let dm := update_init_py_dirs arcname st.dirs st.markers
      pybin_add_pylib fs mtime base_dir exclusions rest
        { entries := st.entries ++ [⟨arcname, fs sd.1, mtime sd.1⟩],
          dirs := dm.1, markers := dm.2 }

/-- `_pybin_add_zip`: copy each entry passing `filter` and the exclusion test;
`track` models whether the `dirs`/`dirs_with_init_py` arguments are present
(`_pybin_add_egg` passes `None, None`, so its entries update no
bookkeeping). -/
def pybin_add_zip_loop (now : Nat) (lib : List (String × String))
    (filt : String → Bool) (exclusions : List String) (track : Bool) :
    List String → PybinState → PybinState
  | [], st => st
  | name :: rest, st =>
    if filt name && !(is_python_excluded_path name exclusions) then
      let dm := if track then update_init_py_dirs name st.dirs st.markers
                else (st.dirs, st.markers)
      pybin_add_zip_loop now lib filt exclusions track rest
        { entries := st.entries ++ [⟨name, zip_read lib name, now⟩],
          dirs := dm.1, markers := dm.2 }
    else
      pybin_add_zip_loop now lib filt exclusions track rest st

def pybin_add_zip (now : Nat) (lib : List (String × String))
    (filt : String → Bool) (exclusions : List String) (track : Bool)
    (st : PybinState) : PybinState :=
  pybin_add_zip_loop now lib filt exclusions track (lib.map Prod.fst) st

/-- The entry filter of `_pybin_add_egg`: skip the `EGG-INFO` metadata
directory and precompiled `.pyc` files. -/
def egg_filter (name : String) : Bool :=
  if startswith name "EGG-INFO" then false
  else if endswith name ".pyc" then false
  else true

/-- `_pybin_add_egg`: zip copy with the egg filter and no directory
bookkeeping (`None, None`). -/
def pybin_add_egg (now : Nat) (lib : List (String × String))
    (exclusions : List String) (st : PybinState) : PybinState :=
  pybin_add_zip now lib egg_filter exclusions false st

/-- The entry filter of `_pybin_add_whl`: skip `.dist-info/` metadata. -/
def whl_filter (name : String) : Bool :=
  if containsSub name ".dist-info/" then false else true

/-- `_pybin_add_whl`: zip copy with the wheel filter and directory
bookkeeping. -/
def pybin_add_whl (now : Nat) (lib : List (String × String))
    (exclusions : List String) (st : PybinState) : PybinState :=
  pybin_add_zip now lib whl_filter exclusions true st

/-- One input artifact of `generate_python_binary`: its file name (the format
dispatch reads its suffix) and what reading the file yields — a parsed
`.pylib` descriptor `{base_dir, srcs}`, or an archive entry list for the zip
based formats. -/
inductive PyArgData where
  | pylib (base_dir : String) (srcs : List (String × String))
  | zip (entries : List (String × String))
deriving DecidableEq, Repr

structure PyArg where
  name : String
  data : PyArgData
deriving DecidableEq, Repr

/-- Whether an argument's name carries one of the three recognized format
suffixes. -/
def py_arg_recognized (a : PyArg) : Bool :=
  endswith a.name ".pylib" || endswith a.name ".egg" || endswith a.name ".whl"

/-- A recognized argument whose payload matches its suffix (reading a
mismatched file raises inside the corresponding `_pybin_add_*`). -/
def py_arg_ok (a : PyArg) : Bool :=
  if endswith a.name ".pylib" then
    match a.data with | .pylib _ _ => true | _ => false
  else if endswith a.name ".egg" || endswith a.name ".whl" then
    match a.data with | .zip _ => true | _ => false
  else false

/-- The dispatch loop of `generate_python_binary` over its input artifacts:
`.pylib`, `.egg` and `.whl` are handled by their adders; any other suffix
hits `assert False, 'Unknown file type ...'`. -/
def pybin_process (fs : String → String) (mtime : String → Nat) (now : Nat)
    (exclusions : List String) :
    List PyArg → PybinState → Except String PybinState
  | [], st => .ok st
  | a :: rest, st =>
    if endswith a.name ".pylib" then
      match a.data with
      | .pylib bd srcs =>
        pybin_process fs mtime now exclusions rest
          (pybin_add_pylib fs mtime bd exclusions srcs st)
      | _ => .error ("IOFailure: " ++ a.name)
    else if endswith a.name ".egg" then
      match a.data with
      | .zip es =>
        pybin_process fs mtime now exclusions rest (pybin_add_egg now es exclusions st)
      | _ => .error ("IOFailure: " ++ a.name)
    else if endswith a.name ".whl" then
      match a.data with
      | .zip es =>
        pybin_process fs mtime now exclusions rest (pybin_add_whl now es exclusions st)
      | _ => .error ("IOFailure: " ++ a.name)
    else
      .error ("AssertionError: Unknown file type \x22" ++ a.name
        ++ "\x22 to build python_binary")

/-- The bootstrap shell prologue
`'#!/bin/sh\n\n' 'PYTHONPATH="$0:$PYTHONPATH" exec python -m "%s" "$@"\n' % mainentry`. -/
def py_bootstrap (mainentry : String) : String :=
  "#!/bin/sh\n\n" ++
    "PYTHONPATH=\x22$0:$PYTHONPATH\x22 exec python -m \x22" ++ mainentry
    ++ "\x22 \x22$@\x22\n"

/-- The finished self-executing bundle: its final bytes, the executable
permission bit (`os.chmod(pybin, 0o755)`), the finalized archive's entries,
and the final bookkeeping sets. -/
structure PybinOutput where
  bytes : String
  executable : Bool
  entries : List Entry
  dirs : List Path
  markers : List Path
deriving DecidableEq, Repr

/-- Insertion sort of directory sets by their path string, modelling Python's
`sorted` over the directory strings. -/
def insertSortedPath (x : Path) : List Path → List Path
  | [] => [x]
  | y :: ys =>
    if joinPath x ≤ joinPath y then x :: y :: ys else y :: insertSortedPath x ys

/-- `sorted(dirs_missing_init_py)`. -/
def sortPaths (l : List Path) : List Path := l.foldr insertSortedPath []

/-- `generate_python_binary(pybin, basedir, exclusions, mainentry, args)`:
split the exclusion globs on `','`; process the inputs in order; synthesize
an empty `__init__.py` in every recorded directory lacking one and at the
bundle root; finalize the archive; then write the bootstrap prologue
immediately followed by the archive bytes and set the executable bit.
(`basedir` is accepted but never read by the source.)  Returns the final
output, or the raised error. -/
def generate_python_binary (fs : String → String) (mtime : String → Nat)
    (now : Nat) (basedir exclusions mainentry : String) (args : List PyArg) :
    Except String PybinOutput :=
  let excl := pySplit exclusions ','
  match pybin_process fs mtime now excl args ⟨[], [], []⟩ with
  | .error e => .error e
  | .ok st =>
    let missing := sortPaths (st.dirs.filter (fun d => !(decide (d ∈ st.markers))))
    let entries := st.entries
      ++ missing.map (fun d => (⟨joinPath d ++ "/__init__.py", "", now⟩ : Entry))
      ++ [⟨"__init__.py", "", now⟩]
    .ok { bytes := py_bootstrap mainentry ++ serializeArchive entries,
          executable := true,
          entries := entries, dirs := st.dirs, markers := st.markers }

/-! ## Derived views used in the statements -/

/-- The entries a `.pylib` descriptor contributes to the archive (what
`_pybin_add_pylib` writes): one entry per non-excluded listed source, at its
arcname relative to the descriptor's base directory. -/
def pylib_contrib (fs : String → String) (mtime : String → Nat)
    (base_dir : String) (exclusions : List String)
    (srcs : List (String × String)) : List Entry :=
  srcs.filterMap (fun sd =>
    let arcname := relpath sd.1 base_dir
    if is_python_excluded_path arcname exclusions then none
    else some ⟨arcname, fs sd.1, mtime sd.1⟩)

/-- The entries a zip-format input contributes (what `_pybin_add_zip`
writes): one entry per name passing the format filter and the exclusion
test. -/
def zip_contrib (now : Nat) (lib : List (String × String))
    (filt : String → Bool) (exclusions : List String) : List Entry :=
  (lib.map Prod.fst).filterMap (fun name =>
    if filt name && !(is_python_excluded_path name exclusions) then
      some ⟨name, zip_read lib name, now⟩
    else none)

/-- The entries one input artifact of `generate_python_binary` contributes,
by format dispatch. -/
def pybin_arg_contrib (fs : String → String) (mtime : String → Nat)
    (now : Nat) (exclusions : List String) (a : PyArg) : List Entry :=
  if endswith a.name ".pylib" then
    match a.data with
    | .pylib bd srcs => pylib_contrib fs mtime bd exclusions srcs
    | _ => []
  else if endswith a.name ".egg" then
    match a.data with
    | .zip es => zip_contrib now es egg_filter exclusions
    | _ => []
  else if endswith a.name ".whl" then
    match a.data with
    | .zip es => zip_contrib now es whl_filter exclusions
    | _ => []
  else []

/-- The value held by a Python `dict` after a sequence of assignments: the
value of the last pair with the given key, if any. -/
def lastVal (name : String) : List (String × String) → Option String
  | [] => none
  | p :: rest =>
    match lastVal name rest with
    | some v => some v
    | none => if p.1 = name then some p.2 else none

/-- Timestamp-free view of a composition state. -/
def stripSt (st : PybinState) : List (String × String) × List Path × List Path :=
  (stripEntries st.entries, st.dirs, st.markers)

/-- Timestamp-free view of a finished python binary. -/
def stripOut (o : PybinOutput) :
    List (String × String) × List Path × List Path × Bool :=
  (stripEntries o.entries, o.dirs, o.markers, o.executable)

/-- A directory `d` is an ancestor directory of the path with components
`comps` (including the immediate parent): `d` is a non-empty proper prefix of
`comps`. -/
def IsAncestorOf (d comps : Path) : Prop :=
  d ≠ [] ∧ ∃ t, t ≠ [] ∧ d ++ t = comps

/-! # Lemmas -/

/-! ## Package composer -/

theorem archive_package_sources_eq (md5 fs : String → String)
    (mtime : String → Nat) : ∀ ss ds : List String,
    archive_package_sources md5 fs mtime ss ds =
      ((ss.zip ds).map (fun sd => (⟨sd.2, fs sd.1, mtime sd.1⟩ : Entry)),
       (ss.zip ds).map (fun sd => md5 (fs sd.1) ++ " " ++ sd.2))
  | [], ds => by cases ds <;> rfl
  | _ :: _, [] => rfl
  | s :: ss, d :: ds => by
    simp only [archive_package_sources, archive_package_sources_eq md5 fs mtime ss ds,
      List.zip_cons_cons, List.map_cons]

/-! # Claims -/

/-- C4 (corrected).  For the generic package composer with `n` sources and
`n` destinations, the embedded `MANIFEST.TXT` entry holds the lines
`<digest of sources[i]'s content> <destinations[i]>` in order, one per
source; the entry written at `destinations[i]` holds `sources[i]`'s content,
so each recorded digest equals a re-digest of the content at its
destination.  The zip container's manifest is exactly those `n`
newline-terminated lines; the tar-family containers append one extra
newline, i.e. a trailing empty line (the source writes
`'\n'.join(manifest) + '\n\n'` there), which is what the original claim
missed. -/
theorem manifest_completeness (md5 fs : String → String) (mtime : String → Nat)
    (now : Nat) (sources destinations : List String)
    (hlen : destinations.length = sources.length) :
    ∃ (entries : List Entry) (lines : List String),
      generate_zip_package md5 fs mtime now sources destinations
          = entries ++ [⟨"MANIFEST.TXT", String.intercalate "\n" lines ++ "\n", now⟩]
      ∧ generate_tar_package md5 fs mtime now sources destinations
          = entries ++ [⟨"MANIFEST.TXT", String.intercalate "\n" lines ++ "\n\n", now⟩]
      ∧ lines.length = sources.length
      ∧ entries = (sources.zip destinations).map
          (fun sd => (⟨sd.2, fs sd.1, mtime sd.1⟩ : Entry))
      ∧ lines = (sources.zip destinations).map
          (fun sd => md5 (fs sd.1) ++ " " ++ sd.2)
      ∧ ∀ (i : Nat) (he : i < entries.length) (hl : i < lines.length),
          lines.get ⟨i, hl⟩
            = md5 ((entries.get ⟨i, he⟩).content) ++ " " ++ (entries.get ⟨i, he⟩).name := by
  refine ⟨(sources.zip destinations).map
      (fun sd => (⟨sd.2, fs sd.1, mtime sd.1⟩ : Entry)),
    (sources.zip destinations).map (fun sd => md5 (fs sd.1) ++ " " ++ sd.2),
    ?_, ?_, ?_, rfl, rfl, ?_⟩
  · simp [generate_zip_package, archive_package_sources_eq]
  · simp [generate_tar_package, archive_package_sources_eq]
  · simp [List.length_zip, hlen]
  · intro i he hl
    simp only [List.get_eq_getElem, List.getElem_map]

/-- C4, the counterexample to the claim as stated: for one source whose
content digests to `"#A"` and destination `d`, the claim's "exactly `n`
lines" form of the manifest entry is the single newline-terminated line
`"#A d\n"`, but the tar-family manifest entry written by the code is
`"#A d\n\n"` — an extra trailing empty line. -/
theorem manifest_completeness_tar_counterexample :
    generate_tar_package (fun s => "#" ++ s) (fun _ => "A") (fun _ => 0) 7 ["s"] ["d"]
        = [⟨"d", "A", 0⟩, ⟨"MANIFEST.TXT", "#A d\n\n", 7⟩]
      ∧ "#A d\n\n" ≠ "#A d\n" := by
  constructor
  · rfl
  · decide

/-- C7 (confirmed).  A `generate_package` call whose trailing list after the
output path has odd length fails the `assert` and aborts before any archive
is opened or any entry written; for even length `2n`, the first `n` elements
are the sources, written 1:1 to the last `n` elements as destinations (shown
here for a zip output path and for a tar-family output path). -/
theorem generate_package_arg_shape (md5 fs : String → String)
    (mtime : String → Nat) (now : Nat) (path : String) (rest : List String) :
    (rest.length % 2 = 1 →
      generate_package md5 fs mtime now (path :: rest)
        = .error "AssertionError: len(manifest) % 2 == 0")
    ∧ (rest.length % 2 = 0 → endswith path ".zip" = true →
      generate_package md5 fs mtime now (path :: rest)
        = .ok (((rest.take (rest.length / 2)).zip (rest.drop (rest.length / 2))).map
              (fun sd => (⟨sd.2, fs sd.1, mtime sd.1⟩ : Entry))
            ++ [⟨"MANIFEST.TXT",
                  String.intercalate "\n"
                    (((rest.take (rest.length / 2)).zip
                        (rest.drop (rest.length / 2))).map
                      (fun sd => md5 (fs sd.1) ++ " " ++ sd.2)) ++ "\n", now⟩]))
    ∧ (rest.length % 2 = 0 → endswith path ".zip" = false →
        tar_suffix path = some "tar" →
      generate_package md5 fs mtime now (path :: rest)
        = .ok (((rest.take (rest.length / 2)).zip (rest.drop (rest.length / 2))).map
              (fun sd => (⟨sd.2, fs sd.1, mtime sd.1⟩ : Entry))
            ++ [⟨"MANIFEST.TXT",
                  String.intercalate "\n"
                    (((rest.take (rest.length / 2)).zip
                        (rest.drop (rest.length / 2))).map
                      (fun sd => md5 (fs sd.1) ++ " " ++ sd.2)) ++ "\n\n", now⟩])) := by
  refine ⟨fun hodd => ?_, fun heven hzip => ?_, fun heven hzip htar => ?_⟩
  · simp [generate_package, hodd]
  · simp [generate_package, heven, hzip, generate_zip_package,
      archive_package_sources_eq]
  · simp [generate_package, heven, hzip, htar, generate_tar_package,
      archive_package_sources_eq]

/-- Witness for C7 at concrete inputs: `["out.zip", "s"]` (odd trailing
list) aborts with the assertion, and `["out.zip", "s", "d"]` writes source
`s`'s content at destination `d` followed by the manifest. -/
theorem generate_package_arg_shape_witness :
    generate_package (fun s => "#" ++ s) (fun _ => "A") (fun _ => 3) 7
        ["out.zip", "s"] = .error "AssertionError: len(manifest) % 2 == 0"
    ∧ generate_package (fun s => "#" ++ s) (fun _ => "A") (fun _ => 3) 7
        ["out.zip", "s", "d"]
        = .ok [⟨"d", "A", 3⟩, ⟨"MANIFEST.TXT", "#A d\n", 7⟩] := by
  constructor
  · exact (generate_package_arg_shape (fun s => "#" ++ s) (fun _ => "A")
      (fun _ => 3) 7 "out.zip" ["s"]).1 (by decide)
  · exact ((generate_package_arg_shape (fun s => "#" ++ s) (fun _ => "A")
      (fun _ => 3) 7 "out.zip" ["s", "d"]).2.1 (by decide) (by decide)).trans (by rfl)

/-- Witness for C4 at one concrete source/destination pair. -/
theorem manifest_completeness_witness :
    ∃ (entries : List Entry) (lines : List String),
      generate_zip_package (fun s => "#" ++ s) (fun _ => "A") (fun _ => 3) 7 ["s"] ["d"]
          = entries ++ [⟨"MANIFEST.TXT", String.intercalate "\n" lines ++ "\n", 7⟩]
      ∧ generate_tar_package (fun s => "#" ++ s) (fun _ => "A") (fun _ => 3) 7 ["s"] ["d"]
          = entries ++ [⟨"MANIFEST.TXT", String.intercalate "\n" lines ++ "\n\n", 7⟩]
      ∧ lines.length = (["s"] : List String).length
      ∧ entries = ((["s"] : List String).zip ["d"]).map
          (fun sd => (⟨sd.2, (fun _ : String => "A") sd.1, (fun _ : String => 3) sd.1⟩ : Entry))
      ∧ lines = ((["s"] : List String).zip ["d"]).map
          (fun sd => ((fun s => "#" ++ s) ((fun _ : String => "A") sd.1)) ++ " " ++ sd.2)
      ∧ ∀ (i : Nat) (he : i < entries.length) (hl : i < lines.length),
          lines.get ⟨i, hl⟩
            = ((fun s => "#" ++ s) ((entries.get ⟨i, he⟩).content)) ++ " "
                ++ (entries.get ⟨i, he⟩).name :=
  manifest_completeness (fun s => "#" ++ s) (fun _ => "A") (fun _ => 3) 7
    ["s"] ["d"] (by decide)

/-! ## Command line parser lemmas -/

theorem splitFirst_eq_none {c : Char} : ∀ {l : List Char}, c ∉ l →
    splitFirst c l = none
  | [], _ => rfl
  | x :: xs, h => by
    have hx : ¬ x = c := fun he => h (he ▸ List.mem_cons_self x xs)
    have hxs : c ∉ xs := fun hm => h (List.mem_cons_of_mem x hm)
    simp [splitFirst, hx, splitFirst_eq_none hxs]

theorem splitFirst_append {c : Char} (v : List Char) : ∀ (n : List Char),
    c ∉ n → splitFirst c (n ++ c :: v) = some (n, v)
  | [], _ => by simp [splitFirst]
  | x :: xs, h => by
    have hx : ¬ x = c := fun he => h (he ▸ List.mem_cons_self x xs)
    have hxs : c ∉ xs := fun hm => h (List.mem_cons_of_mem x hm)
    simp [splitFirst, hx, splitFirst_append v xs hxs]

theorem parse_loop_snd : ∀ (argv : List String) (opts : String → Option String)
    (args : List String),
    (parse_command_line_loop argv opts args).2
      = args ++ argv.filter (fun a => (parse_arg_option a).isNone)
  | [], _, _ => by simp [parse_command_line_loop]
  | arg :: rest, opts, args => by
    cases h : parse_arg_option arg with
    | none =>
      simp [parse_command_line_loop, h, parse_loop_snd rest opts (args ++ [arg]),
        List.filter_cons]
    | some nv =>
      simp [parse_command_line_loop, h,
        parse_loop_snd rest (dictSet opts nv.1 nv.2) args, List.filter_cons]

theorem parse_loop_fst : ∀ (argv : List String) (opts : String → Option String)
    (args : List String) (name : String),
    (parse_command_line_loop argv opts args).1 name
      = match lastVal name (argv.filterMap parse_arg_option) with
        | some v => some v
        | none => opts name
  | [], _, _, _ => by simp [parse_command_line_loop, lastVal]
  | arg :: rest, opts, args, name => by
    cases h : parse_arg_option arg with
    | none =>
      simp only [parse_command_line_loop, h, List.filterMap_cons, Option.isNone]
      exact parse_loop_fst rest opts (args ++ [arg]) name
    | some nv =>
      simp only [parse_command_line_loop, h, List.filterMap_cons]
      rw [parse_loop_fst rest (dictSet opts nv.1 nv.2) args name]
      cases hl : lastVal name (rest.filterMap parse_arg_option) with
      | some v => simp [lastVal, hl]
      | none =>
        simp only [lastVal, hl, dictSet]
        by_cases hn : nv.1 = name
        · simp [hn]
        · have h1 : ¬ name = nv.1 := fun he => hn he.symm
          simp [hn, h1]

/-- C9 (confirmed).  `parse_command_line` classifies an argument as an option
exactly when it starts with `--` and contains `=`: the name is the text
between `--` and the first `=`, the value everything after it.  All other
arguments — including those starting with `--` but holding no `=` — are kept
as positional arguments in order, and when an option name is assigned twice
the later value wins (clauses: positional order, dict lookup = last
assignment, `--name=value` parses to `(name, value)`, no `=` means
positional, no leading `--` means positional). -/
theorem parse_command_line_spec :
    (∀ argv : List String,
      (parse_command_line argv).2
        = argv.filter (fun a => (parse_arg_option a).isNone))
    ∧ (∀ (argv : List String) (name : String),
      (parse_command_line argv).1 name
        = lastVal name (argv.filterMap parse_arg_option))
    ∧ (∀ n v : String, ('=' : Char) ∉ n.data →
      parse_arg_option ("--" ++ n ++ "=" ++ v) = some (n, v))
    ∧ (∀ a : String, ('=' : Char) ∉ a.data → parse_arg_option a = none)
    ∧ (∀ a : String, startswith a "--" = false → parse_arg_option a = none) := by
  refine ⟨fun argv => ?_, fun argv name => ?_, fun n v hn => ?_, fun a ha => ?_,
    fun a ha => ?_⟩
  · simpa using parse_loop_snd argv (fun _ => none) []
  · rw [parse_command_line, parse_loop_fst argv (fun _ => none) [] name]
    cases lastVal name (argv.filterMap parse_arg_option) <;> rfl
  · have hdata : ("--" ++ n ++ "=" ++ v).data
        = '-' :: '-' :: (n.data ++ '=' :: v.data) := by
      simp [String.data_append]
    have hpre : startswith ("--" ++ n ++ "=" ++ v) "--" = true := by
      rw [startswith, hdata]
      simp [List.isPrefixOf]
    have hsplit : splitFirst '=' (('-' : Char) :: '-' :: (n.data ++ '=' :: v.data))
        = some ('-' :: '-' :: n.data, v.data) := by
      have h1 : ¬ ('-' : Char) = '=' := by decide
      simp [splitFirst, h1, splitFirst_append v.data n.data hn]
    rw [parse_arg_option, hpre, if_pos rfl, hdata, hsplit]
    rfl
  · rw [parse_arg_option]
    by_cases hp : startswith a "--" = true
    · rw [if_pos hp, splitFirst_eq_none ha]
    · rw [if_neg hp]
  · rw [parse_arg_option, ha]
    simp

/-- Witness for C9: `--a=1` parses as option `a := 1`; after a later
`--a=2` the lookup of `a` yields `2`; `--b` (no `=`) and `pos` stay
positional in order. -/
theorem parse_command_line_spec_witness :
    parse_arg_option ("--" ++ "a" ++ "=" ++ "1") = some ("a", "1")
    ∧ (parse_command_line ["--a=1", "--b", "pos", "--a=2"]).1 "a" = some "2"
    ∧ (parse_command_line ["--a=1", "--b", "pos", "--a=2"]).2 = ["--b", "pos"] := by
  refine ⟨parse_command_line_spec.2.2.1 "a" "1" (by decide), ?_, ?_⟩
  · decide
  · decide

/-! ## Unrecognized python binary inputs (C8) -/

theorem pybin_process_unrecognized (fs : String → String) (mtime : String → Nat)
    (now : Nat) (excl : List String) (bad : PyArg) (post : List PyArg)
    (hbad : py_arg_recognized bad = false) :
    ∀ (pre : List PyArg) (st : PybinState), (∀ a ∈ pre, py_arg_ok a = true) →
    pybin_process fs mtime now excl (pre ++ bad :: post) st
      = .error ("AssertionError: Unknown file type \x22" ++ bad.name
          ++ "\x22 to build python_binary")
  | [], st, _ => by
    have h := hbad
    simp only [py_arg_recognized, Bool.or_eq_false_iff] at h
    simp [pybin_process, h.1.1, h.1.2, h.2]
  | a :: pre, st, hok => by
    have ha := hok a (List.mem_cons_self a pre)
    have hrest : ∀ x ∈ pre, py_arg_ok x = true :=
      fun x hx => hok x (List.mem_cons_of_mem a hx)
    obtain ⟨nm, dat⟩ := a
    rw [List.cons_append]
    by_cases h1 : endswith nm ".pylib" = true
    · cases dat with
      | pylib bd srcs =>
        simp only [pybin_process, h1, if_true]
        exact pybin_process_unrecognized fs mtime now excl bad post hbad pre _ hrest
      | zip es => simp [py_arg_ok, h1] at ha
    · by_cases h2 : endswith nm ".egg" = true
      · cases dat with
        | pylib bd srcs => simp [py_arg_ok, h1, h2] at ha
        | zip es =>
          simp only [pybin_process, h1, h2, if_true, Bool.false_eq_true, if_false]
          exact pybin_process_unrecognized fs mtime now excl bad post hbad pre _ hrest
      · by_cases h3 : endswith nm ".whl" = true
        · cases dat with
          | pylib bd srcs => simp [py_arg_ok, h1, h2, h3] at ha
          | zip es =>
            simp only [pybin_process, h1, h2, h3, if_true, Bool.false_eq_true, if_false]
            exact pybin_process_unrecognized fs mtime now excl bad post hbad pre _ hrest
        · simp [py_arg_ok, h1, h2, h3] at ha

/-- C8 (confirmed).  If any input artifact of `generate_python_binary` has a
name ending in none of `.pylib`, `.egg`, `.whl` (here: the first such,
after well-formed recognized inputs), the whole operation aborts with the
`assert False, 'Unknown file type ...'` precondition violation: the result is
the error — no output bundle is built, finalized, or given the bootstrap
prologue. -/
theorem pybin_unknown_format_aborts (fs : String → String)
    (mtime : String → Nat) (now : Nat) (basedir exclusions mainentry : String)
    (pre post : List PyArg) (bad : PyArg)
    (hpre : ∀ a ∈ pre, py_arg_ok a = true)
    (hbad : py_arg_recognized bad = false) :
    generate_python_binary fs mtime now basedir exclusions mainentry
        (pre ++ bad :: post)
      = .error ("AssertionError: Unknown file type \x22" ++ bad.name
          ++ "\x22 to build python_binary") := by
  rw [generate_python_binary,
    pybin_process_unrecognized fs mtime now (pySplit exclusions ',') bad post hbad
      pre ⟨[], [], []⟩ hpre]

/-- Witness for C8: a well-formed `.pylib` input followed by a `.jar` input
aborts the whole composition. -/
theorem pybin_unknown_format_aborts_witness :
    generate_python_binary (fun _ => "") (fun _ => 0) 0 "" "" "m"
        ([⟨"a.pylib", .pylib "b" []⟩] ++ ⟨"dep.jar", .zip []⟩ :: [])
      = .error ("AssertionError: Unknown file type \x22" ++ "dep.jar"
          ++ "\x22 to build python_binary") :=
  pybin_unknown_format_aborts (fun _ => "") (fun _ => 0) 0 "" "" "m"
    [⟨"a.pylib", .pylib "b" []⟩] [] ⟨"dep.jar", .zip []⟩
    (by intro a ha; simp at ha; subst ha; decide) (by decide)

/-! ## Bootstrap prepender (C6) -/

/-- C6 (confirmed).  Whenever `generate_python_binary` succeeds, the output
file's bytes are exactly the shell prologue immediately followed by the
unmodified bytes of the finalized archive (so the suffix after the prologue
reopens as the archive itself), the executable bit is set, and the prologue
is a complete script: it starts with the `#!/bin/sh` shebang line and ends
with a newline-terminated `exec` hand-off line. -/
theorem pybin_bootstrap_prepend (fs : String → String) (mtime : String → Nat)
    (now : Nat) (basedir exclusions mainentry : String) (args : List PyArg)
    (out : PybinOutput)
    (hok : generate_python_binary fs mtime now basedir exclusions mainentry args
      = .ok out) :
    out.bytes = py_bootstrap mainentry ++ serializeArchive out.entries
    ∧ out.executable = true
    ∧ ∃ mid, py_bootstrap mainentry = "#!/bin/sh\n\n" ++ mid ++ " \x22$@\x22\n" := by
  rw [generate_python_binary] at hok
  cases hp : pybin_process fs mtime now (pySplit exclusions ',') args ⟨[], [], []⟩ with
  | error e => rw [hp] at hok; exact absurd hok (by simp)
  | ok st =>
    rw [hp] at hok
    simp only [Except.ok.injEq] at hok
    subst hok
    refine ⟨rfl, rfl,
      "PYTHONPATH=\x22$0:$PYTHONPATH\x22 exec python -m \x22" ++ mainentry ++ "\x22", ?_⟩
    have hlit : ("\x22 \x22$@\x22\n" : String) = "\x22" ++ " \x22$@\x22\n" := rfl
    rw [py_bootstrap, hlit]
    simp only [String.append_assoc]

/-- Witness for C6: composing from an empty input list succeeds, and the
output is the prologue followed by the archive holding the root marker. -/
theorem pybin_bootstrap_prepend_witness :
    ∃ out, generate_python_binary (fun _ => "") (fun _ => 0) 0 "" "" "main" [] = .ok out
      ∧ out.bytes = py_bootstrap "main" ++ serializeArchive out.entries
      ∧ out.executable = true
      ∧ ∃ mid, py_bootstrap "main" = "#!/bin/sh\n\n" ++ mid ++ " \x22$@\x22\n" :=
  ⟨_, rfl, pybin_bootstrap_prepend (fun _ => "") (fun _ => 0) 0 "" "" "main" [] _ rfl⟩

/-! ## Entry decomposition of the python binary composer -/

theorem pybin_add_pylib_entries (fs : String → String) (mtime : String → Nat)
    (bd : String) (excl : List String) : ∀ (srcs : List (String × String))
    (st : PybinState),
    (pybin_add_pylib fs mtime bd excl srcs st).entries
      = st.entries ++ pylib_contrib fs mtime bd excl srcs
  | [], st => by simp [pybin_add_pylib, pylib_contrib]
  | sd :: rest, st => by
    by_cases h : is_python_excluded_path (relpath sd.1 bd) excl = true
    · simp only [pybin_add_pylib, h, if_true, pylib_contrib, List.filterMap_cons]
      rw [pybin_add_pylib_entries fs mtime bd excl rest st]
      rfl
    · have hf : is_python_excluded_path (relpath sd.1 bd) excl = false := by
        simpa using h
      simp only [pybin_add_pylib, hf, Bool.false_eq_true, if_false, pylib_contrib,
        List.filterMap_cons]
      rw [pybin_add_pylib_entries fs mtime bd excl rest]
      simp [pylib_contrib, List.append_assoc]

theorem pybin_add_zip_loop_entries (now : Nat) (lib : List (String × String))
    (filt : String → Bool) (excl : List String) (track : Bool) :
    ∀ (ns : List String) (st : PybinState),
    (pybin_add_zip_loop now lib filt excl track ns st).entries
      = st.entries ++ ns.filterMap (fun name =>
          if filt name && !(is_python_excluded_path name excl) then
            some ⟨name, zip_read lib name, now⟩
          else none)
  | [], st => by simp [pybin_add_zip_loop]
  | name :: rest, st => by
    by_cases h : (filt name && !(is_python_excluded_path name excl)) = true
    · simp only [pybin_add_zip_loop, h, if_true, List.filterMap_cons]
      rw [pybin_add_zip_loop_entries now lib filt excl track rest]
      simp [List.append_assoc]
    · have hf : (filt name && !(is_python_excluded_path name excl)) = false := by
        simpa using h
      simp only [pybin_add_zip_loop, hf, Bool.false_eq_true, if_false,
        List.filterMap_cons]
      exact pybin_add_zip_loop_entries now lib filt excl track rest st

theorem pybin_add_zip_entries (now : Nat) (lib : List (String × String))
    (filt : String → Bool) (excl : List String) (track : Bool) (st : PybinState) :
    (pybin_add_zip now lib filt excl track st).entries
      = st.entries ++ zip_contrib now lib filt excl :=
  pybin_add_zip_loop_entries now lib filt excl track (lib.map Prod.fst) st

theorem pybin_process_entries (fs : String → String) (mtime : String → Nat)
    (now : Nat) (excl : List String) : ∀ (args : List PyArg) (st st' : PybinState),
    pybin_process fs mtime now excl args st = .ok st' →
    st'.entries = st.entries ++ args.flatMap (pybin_arg_contrib fs mtime now excl)
  | [], st, st', h => by
    simp only [pybin_process, Except.ok.injEq] at h
    simp [← h]
  | a :: rest, st, st', h => by
    obtain ⟨nm, dat⟩ := a
    simp only [pybin_process] at h
    by_cases h1 : endswith nm ".pylib" = true
    · rw [if_pos h1] at h
      cases dat with
      | pylib bd srcs =>
        have := pybin_process_entries fs mtime now excl rest _ st' h
        simp only [this, pybin_add_pylib_entries, List.flatMap_cons,
          pybin_arg_contrib, h1, if_true, List.append_assoc]
      | zip es => exact absurd h (by simp)
    · rw [if_neg (by simpa using h1)] at h
      by_cases h2 : endswith nm ".egg" = true
      · rw [if_pos h2] at h
        cases dat with
        | pylib bd srcs => exact absurd h (by simp)
        | zip es =>
          have := pybin_process_entries fs mtime now excl rest _ st' h
          simp only [this, pybin_add_egg, pybin_add_zip_entries, List.flatMap_cons,
            pybin_arg_contrib, h1, h2, Bool.false_eq_true, if_false, if_true,
            List.append_assoc]
      · rw [if_neg (by simpa using h2)] at h
        by_cases h3 : endswith nm ".whl" = true
        · rw [if_pos h3] at h
          cases dat with
          | pylib bd srcs => exact absurd h (by simp)
          | zip es =>
            have := pybin_process_entries fs mtime now excl rest _ st' h
            simp only [this, pybin_add_whl, pybin_add_zip_entries, List.flatMap_cons,
              pybin_arg_contrib, h1, h2, h3, Bool.false_eq_true, if_false, if_true,
              List.append_assoc]
        · rw [if_neg (by simpa using h3)] at h
          exact absurd h (by simp)

/-- Two distinguished elements of two middle segments occur in order in the
surrounding concatenation. -/
theorem sublist_middle_pair {α : Type} (eA eB : α) (X A Y B Z : List α)
    (hA : eA ∈ A) (hB : eB ∈ B) :
    ([eA, eB] : List α).Sublist (X ++ A ++ Y ++ B ++ Z) := by
  have h1 : ([eA] : List α).Sublist A := List.singleton_sublist.mpr hA
  have h2 : ([eB] : List α).Sublist B := List.singleton_sublist.mpr hB
  have hmain : (([eA] ++ [eB]) : List α).Sublist ((X ++ A ++ Y) ++ (B ++ Z)) := by
    apply List.Sublist.append
    · exact (h1.trans (List.sublist_append_left A Y)).trans
        (by simpa [List.append_assoc] using List.sublist_append_right X (A ++ Y))
    · exact h2.trans (List.sublist_append_left B Z)
  simpa [List.append_assoc] using hmain

/-- C1 (corrected).  The interpreted-runtime composer performs no
deduplication at all: when source `A` (processed before source `B`)
contributes an entry named `x` and `B` also contributes an entry named `x`,
the composed archive retains *both* entries, `A`'s copy earlier than `B`'s —
the names of a composed output are not unique and nothing is dropped.
(Consequently a by-name reader of the resulting zip resolves `x` to the
*last* writer, `B` — see the counterexample.) -/
theorem pybin_no_dedup_appends_both (fs : String → String)
    (mtime : String → Nat) (now : Nat) (basedir exclusions mainentry : String)
    (l1 l2 l3 : List PyArg) (a b : PyArg) (out : PybinOutput)
    (eA eB : Entry) (x : String)
    (hok : generate_python_binary fs mtime now basedir exclusions mainentry
      (l1 ++ a :: l2 ++ b :: l3) = .ok out)
    (hA : eA ∈ pybin_arg_contrib fs mtime now (pySplit exclusions ',') a)
    (hB : eB ∈ pybin_arg_contrib fs mtime now (pySplit exclusions ',') b)
    (hxA : eA.name = x) (hxB : eB.name = x) :
    ([eA, eB] : List Entry).Sublist out.entries := by
  rw [generate_python_binary] at hok
  cases hp : pybin_process fs mtime now (pySplit exclusions ',') (l1 ++ a :: l2 ++ b :: l3)
      ⟨[], [], []⟩ with
  | error e => rw [hp] at hok; exact absurd hok (by simp)
  | ok st =>
    rw [hp] at hok
    simp only [Except.ok.injEq] at hok
    have hdec := pybin_process_entries fs mtime now (pySplit exclusions ',') _ _ _ hp
    have hout : out.entries
        = st.entries
          ++ (sortPaths (st.dirs.filter (fun d => !(decide (d ∈ st.markers))))).map
              (fun d => (⟨joinPath d ++ "/__init__.py", "", now⟩ : Entry))
          ++ [⟨"__init__.py", "", now⟩] := by
      rw [← hok]
    rw [hout, hdec]
    simp only [List.nil_append, List.flatMap_append, List.flatMap_cons]
    have := sublist_middle_pair eA eB
      (l1.flatMap (pybin_arg_contrib fs mtime now (pySplit exclusions ',')))
      (pybin_arg_contrib fs mtime now (pySplit exclusions ',') a)
      (l2.flatMap (pybin_arg_contrib fs mtime now (pySplit exclusions ',')))
      (pybin_arg_contrib fs mtime now (pySplit exclusions ',') b)
      ((l3.flatMap (pybin_arg_contrib fs mtime now (pySplit exclusions ',')))
        ++ (sortPaths (st.dirs.filter (fun d => !(decide (d ∈ st.markers))))).map
            (fun d => (⟨joinPath d ++ "/__init__.py", "", now⟩ : Entry))
        ++ [⟨"__init__.py", "", now⟩])
      hA hB
    simpa [List.append_assoc] using this

/-- Witness for the amended C1: both copies of `x.py` (first `"A"`, then
`"B"`) occur, in that order, in the composed archive. -/
theorem pybin_no_dedup_appends_both_witness :
    ∃ out, generate_python_binary
        (fun p => if p = "b1/x.py" then "A" else "B") (fun _ => 5) 0 "" "" "m"
        ([] ++ (⟨"l1.pylib", .pylib "b1" [("b1/x.py", "d1")]⟩ : PyArg) ::
          [] ++ (⟨"l2.pylib", .pylib "b2" [("b2/x.py", "d2")]⟩ : PyArg) :: [])
        = .ok out
      ∧ ([⟨"x.py", "A", 5⟩, ⟨"x.py", "B", 5⟩] : List Entry).Sublist out.entries :=
  ⟨_, rfl,
    pybin_no_dedup_appends_both (fun p => if p = "b1/x.py" then "A" else "B")
      (fun _ => 5) 0 "" "" "m" [] [] []
      ⟨"l1.pylib", .pylib "b1" [("b1/x.py", "d1")]⟩
      ⟨"l2.pylib", .pylib "b2" [("b2/x.py", "d2")]⟩ _
      ⟨"x.py", "A", 5⟩ ⟨"x.py", "B", 5⟩ "x.py" rfl
      (by decide) (by decide) rfl rfl⟩

/-- C1, the counterexample to the claim as stated: two `.pylib` descriptors
both contribute an entry named `x.py` (contents `"A"` and `"B"`); the
composed archive contains *two* entries named `x.py`, not exactly one, and a
by-name zip reader returns the second source's content `"B"`, not `"A"`. -/
theorem pybin_no_dedup_counterexample :
    ∃ out, generate_python_binary
        (fun p => if p = "b1/x.py" then "A" else "B") (fun _ => 5) 0 "" "" "m"
        [⟨"l1.pylib", .pylib "b1" [("b1/x.py", "d1")]⟩,
         ⟨"l2.pylib", .pylib "b2" [("b2/x.py", "d2")]⟩] = .ok out
      ∧ (out.entries.filter (fun e => e.name = "x.py")).length = 2
      ∧ zip_read_out out.entries "x.py" = "B" := by
  exact ⟨_, rfl, by decide, by decide⟩

/-! ## JVM composer: first-writer-wins (C3) -/

theorem onejar_loader_loop_no_name (now : Nat) (jar : JarFile) (x : String) :
    ∀ (ns : List String) (acc : List Entry × List String), (∀ n ∈ ns, n ≠ x) →
    ((onejar_loader_loop now jar ns acc).1.filter (fun e => e.name = x)
        = acc.1.filter (fun e => e.name = x))
    ∧ ((x ∈ (onejar_loader_loop now jar ns acc).2) ↔ x ∈ acc.2)
  | [], acc, _ => ⟨rfl, Iff.rfl⟩
  | name :: rest, acc, h => by
    have hx : name ≠ x := h name (List.mem_cons_self name rest)
    have hrest : ∀ n ∈ rest, n ≠ x := fun n hn => h n (List.mem_cons_of_mem name hn)
    by_cases hm : endswith (pyLower name) "manifest.mf" = true
    · simp only [onejar_loader_loop, hm, not_true, Bool.false_eq_true, if_false,
        ite_not]
      exact onejar_loader_loop_no_name now jar x rest acc hrest
    · simp only [onejar_loader_loop, hm, Bool.false_eq_true, not_false_iff,
        if_true, ite_not]
      have ih := onejar_loader_loop_no_name now jar x rest
        (acc.1 ++ [⟨name, zip_read jar.entries name, now⟩], name :: acc.2) hrest
      refine ⟨ih.1.trans ?_, ih.2.trans ?_⟩
      · simp [List.filter_append, hx]
      · have hx' : ¬ x = name := fun he => hx he.symm
        simp [List.mem_cons, hx']

theorem onejar_flatten_loop_claimed (now : Nat) (jar : JarFile) (x : String) :
    ∀ (ns : List String) (acc : List String × List Entry), x ∈ acc.1 →
    ((onejar_flatten_loop now jar ns acc).2.filter (fun e => e.name = x)
        = acc.2.filter (fun e => e.name = x))
    ∧ x ∈ (onejar_flatten_loop now jar ns acc).1
  | [], acc, hx => ⟨rfl, hx⟩
  | name :: rest, acc, hx => by
    by_cases h1 : (endswith name ".class" || startswith (pyUpper name) "META-INF") = true
    · simp only [onejar_flatten_loop, h1, if_true]
      exact onejar_flatten_loop_claimed now jar x rest acc hx
    · simp only [onejar_flatten_loop, h1, Bool.false_eq_true, if_false]
      by_cases h2 : name ∈ acc.1
      · simp only [h2, if_true]
        exact onejar_flatten_loop_claimed now jar x rest acc hx
      · simp only [h2, if_false]
        have hnx : name ≠ x := fun he => h2 (he ▸ hx)
        have ih := onejar_flatten_loop_claimed now jar x rest
          (name :: acc.1, acc.2 ++ [⟨name, zip_read jar.entries name, now⟩])
          (List.mem_cons_of_mem name hx)
        refine ⟨ih.1.trans ?_, ih.2⟩
        simp [List.filter_append, hnx]

theorem onejar_flatten_claimed (now : Nat) (x : String) :
    ∀ (jars : List JarFile) (acc : List String × List Entry), x ∈ acc.1 →
    ((onejar_flatten now jars acc).2.filter (fun e => e.name = x)
        = acc.2.filter (fun e => e.name = x))
    ∧ x ∈ (onejar_flatten now jars acc).1
  | [], acc, hx => ⟨rfl, hx⟩
  | jar :: rest, acc, hx => by
    simp only [onejar_flatten]
    have h1 := onejar_flatten_loop_claimed now jar x (jar.entries.map Prod.fst) acc hx
    have ih := onejar_flatten_claimed now x rest (onejar_flatten_one now jar acc) h1.2
    exact ⟨ih.1.trans h1.1, ih.2⟩

theorem onejar_flatten_loop_writes (now : Nat) (jar : JarFile) (x : String)
    (cm : String) (hread : zip_read jar.entries x = cm)
    (hclass : endswith x ".class" = false)
    (hmeta : startswith (pyUpper x) "META-INF" = false) :
    ∀ (ns : List String) (acc : List String × List Entry),
    x ∉ acc.1 → ns.count x = 1 →
    ((onejar_flatten_loop now jar ns acc).2.filter (fun e => e.name = x)
        = acc.2.filter (fun e => e.name = x) ++ [⟨x, cm, now⟩])
    ∧ x ∈ (onejar_flatten_loop now jar ns acc).1
  | [], _, _, hc => by simp at hc
  | name :: rest, acc, hacc, hc => by
    by_cases hx : name = x
    · subst hx
      have hskip : (endswith name ".class"
          || startswith (pyUpper name) "META-INF") = false := by
        simp [hclass, hmeta]
      have hcount : rest.count name = 0 := by
        have h' := hc
        simp [List.count_cons] at h'
        omega
      have hnotin : name ∉ rest := by
        simpa using List.count_eq_zero.mp hcount
      simp only [onejar_flatten_loop, hskip, Bool.false_eq_true, if_false, hacc]
      have hcl := onejar_flatten_loop_claimed now jar name rest
        (name :: acc.1, acc.2 ++ [⟨name, zip_read jar.entries name, now⟩])
        (List.mem_cons_self name acc.1)
      refine ⟨hcl.1.trans ?_, hcl.2⟩
      simp [List.filter_append, hread]
    · have hcount : rest.count x = 1 := by
        have h' := hc
        simp [List.count_cons, hx] at h'
        omega
      by_cases h1 : (endswith name ".class" || startswith (pyUpper name) "META-INF") = true
      · simp only [onejar_flatten_loop, h1, if_true]
        exact onejar_flatten_loop_writes now jar x cm hread hclass hmeta rest acc
          hacc hcount
      · simp only [onejar_flatten_loop, h1, Bool.false_eq_true, if_false]
        by_cases h2 : name ∈ acc.1
        · simp only [h2, if_true]
          exact onejar_flatten_loop_writes now jar x cm hread hclass hmeta rest acc
            hacc hcount
        · simp only [h2, if_false]
          have hacc' : x ∉ name :: acc.1 := by
            have hx' : ¬ x = name := fun he => hx he.symm
            simp [List.mem_cons, hacc, hx']
          have ih := onejar_flatten_loop_writes now jar x cm hread hclass hmeta rest
            (name :: acc.1, acc.2 ++ [⟨name, zip_read jar.entries name, now⟩])
            hacc' hcount
          refine ⟨ih.1.trans ?_, ih.2⟩
          simp [List.filter_append, hx]

/-- C3 (confirmed).  In `generate_one_jar` the flattened resources obey
first-writer-wins in the order loader jar, main archive, then dependencies:
for a resource name `x` (not a compiled class, not under `META-INF`, not
colliding with the nested `main/`/`lib/` jar names) that the loader does not
contain and that the main archive contains exactly once with content `cm`,
the composed output contains exactly one entry named `x`, holding `cm` —
regardless of the dependency archives' copies of `x`.  With
`x = "config.properties"` present in both the main archive and a dependency,
the output's single flattened `config.properties` is the main archive's. -/
theorem onejar_first_writer_wins (mtime : String → Nat) (now : Nat)
    (main_class : String) (bootjar main_jar : JarFile) (jars : List JarFile)
    (x cm : String)
    (hboot : ∀ e ∈ bootjar.entries, e.1 ≠ x)
    (hcount : (main_jar.entries.map Prod.fst).count x = 1)
    (hread : zip_read main_jar.entries x = cm)
    (hclass : endswith x ".class" = false)
    (hmeta : startswith (pyUpper x) "META-INF" = false)
    (hmain : x ≠ "main/" ++ pyBasename main_jar.name)
    (hdeps : ∀ dep ∈ jars, x ≠ "lib/" ++ pyBasename dep.name) :
    (generate_one_jar mtime now main_class bootjar main_jar jars).filter
        (fun e => e.name = x) = [⟨x, cm, now⟩] := by
  have hmanifest : x ≠ "META-INF/MANIFEST.MF" := by
    intro he
    rw [he] at hmeta
    exact absurd hmeta (by decide)
  have hldr := onejar_loader_loop_no_name now bootjar x
    (bootjar.entries.map Prod.fst) ([], [])
    (fun n hn => by
      obtain ⟨e, he, hne⟩ := List.mem_map.mp hn
      exact hne ▸ hboot e he)
  have hnotclaimed : x ∉ (onejar_loader now bootjar).2 := by
    rw [onejar_loader]
    intro hxm
    exact absurd (hldr.2.mp hxm) (List.not_mem_nil x)
  have hflat1 := onejar_flatten_loop_writes now main_jar x cm hread hclass hmeta
    (main_jar.entries.map Prod.fst) ((onejar_loader now bootjar).2, [])
    hnotclaimed hcount
  have hflat2 := onejar_flatten_claimed now x jars
    (onejar_flatten_one now main_jar ((onejar_loader now bootjar).2, []))
    hflat1.2
  rw [generate_one_jar]
  simp only [List.filter_append]
  have hldr1 : (onejar_loader now bootjar).1.filter (fun e => decide (e.name = x)) = [] := by
    unfold onejar_loader
    rw [hldr.1]
    rfl
  rw [hldr1]
  have hnested : (((⟨"main/" ++ pyBasename main_jar.name, main_jar.bytes,
        mtime main_jar.name⟩ : Entry) ::
      jars.map (fun dep =>
        (⟨"lib/" ++ pyBasename dep.name, dep.bytes, mtime dep.name⟩ : Entry))).filter
          (fun e => e.name = x)) = [] := by
    rw [List.filter_eq_nil_iff]
    intro e he
    rcases List.mem_cons.mp he with h | h
    · subst h
      simpa using fun hx => hmain hx.symm
    · obtain ⟨dep, hdep, hedep⟩ := List.mem_map.mp h
      subst hedep
      simpa using fun hx => hdeps dep hdep hx.symm
  rw [hnested]
  have hflat : (onejar_flatten now (main_jar :: jars)
      ((onejar_loader now bootjar).2, [])).2.filter (fun e => e.name = x)
        = [⟨x, cm, now⟩] := by
    simp only [onejar_flatten]
    rw [hflat2.1]
    unfold onejar_flatten_one at hflat1 ⊢
    rw [hflat1.1]
    simp
  rw [hflat]
  have hman' : ¬ "META-INF/MANIFEST.MF" = x := fun he => hmanifest he.symm
  simp [hman']

/-- Witness for C3: `config.properties` lives in both the main archive
(content `cp-main`) and a dependency (content `cp-dep`); the composed output
holds exactly the main archive's copy. -/
theorem onejar_first_writer_wins_witness :
    (generate_one_jar (fun _ => 3) 9 "com.Main"
        ⟨"boot.jar", "BOOT", [("com/boot.class", "bc"), ("META-INF/MANIFEST.MF", "mf"),
          ("boot.txt", "bt")]⟩
        ⟨"app/main.jar", "MAIN", [("a.class", "ac"), ("config.properties", "cp-main"),
          ("res.txt", "r1")]⟩
        [⟨"dep1.jar", "DEP", [("config.properties", "cp-dep"), ("d.class", "dc"),
          ("res2.txt", "r2")]⟩]).filter
        (fun e => e.name = "config.properties")
      = [⟨"config.properties", "cp-main", 9⟩] :=
  onejar_first_writer_wins (fun _ => 3) 9 "com.Main"
    ⟨"boot.jar", "BOOT", [("com/boot.class", "bc"), ("META-INF/MANIFEST.MF", "mf"),
      ("boot.txt", "bt")]⟩
    ⟨"app/main.jar", "MAIN", [("a.class", "ac"), ("config.properties", "cp-main"),
      ("res.txt", "r1")]⟩
    [⟨"dep1.jar", "DEP", [("config.properties", "cp-dep"), ("d.class", "dc"),
      ("res2.txt", "r2")]⟩]
    "config.properties" "cp-main"
    (by decide) (by decide) (by decide) (by decide) (by decide) (by decide)
    (by decide)

/-! ## Directory bookkeeping lemmas -/

theorem mem_insertSet {x y : Path} {l : List Path} :
    x ∈ insertSet y l ↔ x = y ∨ x ∈ l := by
  unfold insertSet
  by_cases h : y ∈ l
  · simp only [h, if_true]
    exact ⟨fun hx => Or.inr hx, fun hx => hx.elim (fun he => he ▸ h) id⟩
  · simp only [h, if_false, List.mem_append, List.mem_singleton]
    exact or_comm

theorem mem_insertAll {x : Path} : ∀ {l ds : List Path},
    x ∈ insertAll l ds ↔ x ∈ l ∨ x ∈ ds
  | [], ds => by simp [insertAll]
  | d :: rest, ds => by
    rw [insertAll, mem_insertAll (l := rest)]
    simp only [mem_insertSet, List.mem_cons]
    tauto

theorem mem_insertSortedPath {x y : Path} : ∀ {l : List Path},
    x ∈ insertSortedPath y l ↔ x = y ∨ x ∈ l
  | [] => by simp [insertSortedPath]
  | z :: zs => by
    unfold insertSortedPath
    by_cases h : joinPath y ≤ joinPath z
    · simp [h]
    · simp only [h, if_false, List.mem_cons, mem_insertSortedPath (l := zs)]
      tauto

theorem mem_sortPaths {x : Path} : ∀ {l : List Path}, x ∈ sortPaths l ↔ x ∈ l
  | [] => Iff.rfl
  | y :: ys => by
    rw [sortPaths, List.foldr_cons]
    rw [show List.foldr insertSortedPath [] ys = sortPaths ys from rfl] at *
    rw [mem_insertSortedPath, mem_sortPaths (l := ys), List.mem_cons]

theorem dirAncestorsAux_eq : ∀ (f : Nat) (p : Path), p.length ≤ f →
    dirAncestorsAux f p = dirAncestors p
  | 0, p, h => by
    have : p = [] := List.length_eq_zero.mp (Nat.le_zero.mp h)
    subst this
    rfl
  | f + 1, [], _ => by rfl
  | f + 1, d :: ds, h => by
    rw [dirAncestors]
    simp only [dirAncestorsAux, List.length_cons]
    have hlen : (d :: ds).dropLast.length ≤ f := by
      have h' := h
      simp only [List.length_cons] at h'
      simp only [List.length_dropLast, List.length_cons]
      omega
    have hlen2 : (d :: ds).dropLast.length ≤ ds.length := by
      simp [List.length_dropLast]
    rw [dirAncestorsAux_eq f _ hlen, ← dirAncestorsAux_eq ds.length _ hlen2]

theorem dirAncestors_cons {p : Path} (h : p ≠ []) :
    dirAncestors p = p :: dirAncestors p.dropLast := by
  obtain ⟨d, ds, rfl⟩ := List.exists_cons_of_ne_nil h
  rw [dirAncestors]
  simp only [List.length_cons, dirAncestorsAux]
  rw [dirAncestorsAux_eq ds.length _ (by simp [List.length_dropLast])]

theorem mem_dirAncestors_append (d : Path) (hd : d ≠ []) : ∀ t : List String,
    d ∈ dirAncestors (d ++ t) := by
  intro t
  induction t using List.reverseRecOn with
  | nil =>
    rw [List.append_nil, dirAncestors_cons hd]
    exact List.mem_cons_self d _
  | append_singleton t' x ih =>
    have hne : d ++ (t' ++ [x]) ≠ [] := by
      simp [hd]
    rw [dirAncestors_cons hne]
    refine List.mem_cons_of_mem _ ?_
    rw [← List.append_assoc, List.dropLast_concat]
    exact ih

/-- Every ancestor directory of a path is among the loop's recorded
directories. -/
theorem mem_dirAncestors_of_ancestor {d comps : Path}
    (h : IsAncestorOf d comps) : d ∈ dirAncestors comps.dropLast := by
  obtain ⟨hd, t, ht, rfl⟩ := h
  rw [List.dropLast_append_of_ne_nil d ht]
  exact mem_dirAncestors_append d hd t.dropLast

theorem update_init_py_dirs_dirs_mem (arcname : String) (dirs markers : List Path)
    (d : Path) :
    d ∈ (update_init_py_dirs arcname dirs markers).1
      ↔ d ∈ dirAncestors (pathComponents arcname).dropLast ∨ d ∈ dirs := by
  unfold update_init_py_dirs
  exact mem_insertAll

theorem update_init_py_dirs_markers_mono (arcname : String)
    (dirs markers : List Path) (d : Path) (h : d ∈ markers) :
    d ∈ (update_init_py_dirs arcname dirs markers).2 := by
  unfold update_init_py_dirs
  by_cases hb : (pathComponents arcname).getLastD "" = "__init__.py"
  · simp only [hb, if_pos, if_true]
    exact mem_insertSet.mpr (Or.inr h)
  · simpa only [hb, if_false] using h

theorem pybin_add_pylib_dirs_mono (fs : String → String) (mtime : String → Nat)
    (bd : String) (excl : List String) : ∀ (srcs : List (String × String))
    (st : PybinState) {d : Path}, d ∈ st.dirs →
    d ∈ (pybin_add_pylib fs mtime bd excl srcs st).dirs
  | [], _, _, h => h
  | sd :: rest, st, d, h => by
    by_cases hx : is_python_excluded_path (relpath sd.1 bd) excl = true
    · rw [pybin_add_pylib, if_pos hx]
      exact pybin_add_pylib_dirs_mono fs mtime bd excl rest st h
    · rw [pybin_add_pylib, if_neg hx]
      exact pybin_add_pylib_dirs_mono fs mtime bd excl rest _
        ((update_init_py_dirs_dirs_mem (relpath sd.1 bd) st.dirs st.markers d).mpr
          (Or.inr h))

theorem pybin_add_pylib_dirs_anc (fs : String → String) (mtime : String → Nat)
    (bd : String) (excl : List String) : ∀ (srcs : List (String × String))
    (st : PybinState) (sd : String × String), sd ∈ srcs →
    is_python_excluded_path (relpath sd.1 bd) excl = false →
    ∀ {d : Path}, IsAncestorOf d (pathComponents (relpath sd.1 bd)) →
    d ∈ (pybin_add_pylib fs mtime bd excl srcs st).dirs
  | [], _, _, hm, _, _, _ => absurd hm (List.not_mem_nil _)
  | sd' :: rest, st, sd, hm, hexcl, d, hanc => by
    rcases List.mem_cons.mp hm with he | hm'
    · subst he
      rw [pybin_add_pylib, if_neg (by simp [hexcl])]
      refine pybin_add_pylib_dirs_mono fs mtime bd excl rest _ ?_
      exact (update_init_py_dirs_dirs_mem (relpath sd.1 bd) st.dirs st.markers d).mpr
        (Or.inl (mem_dirAncestors_of_ancestor hanc))
    · by_cases hx : is_python_excluded_path (relpath sd'.1 bd) excl = true
      · rw [pybin_add_pylib, if_pos hx]
        exact pybin_add_pylib_dirs_anc fs mtime bd excl rest st sd hm' hexcl hanc
      · rw [pybin_add_pylib, if_neg hx]
        exact pybin_add_pylib_dirs_anc fs mtime bd excl rest _ sd hm' hexcl hanc

theorem pybin_add_zip_loop_dirs_mono (now : Nat) (lib : List (String × String))
    (filt : String → Bool) (excl : List String) (track : Bool) :
    ∀ (ns : List String) (st : PybinState) {d : Path}, d ∈ st.dirs →
    d ∈ (pybin_add_zip_loop now lib filt excl track ns st).dirs
  | [], _, _, h => h
  | name :: rest, st, d, h => by
    by_cases hc : (filt name && !(is_python_excluded_path name excl)) = true
    · rw [pybin_add_zip_loop, if_pos hc]
      refine pybin_add_zip_loop_dirs_mono now lib filt excl track rest _ ?_
      cases track with
      | true => exact (update_init_py_dirs_dirs_mem name st.dirs st.markers d).mpr (Or.inr h)
      | false => exact h
    · rw [pybin_add_zip_loop, if_neg hc]
      exact pybin_add_zip_loop_dirs_mono now lib filt excl track rest st h

theorem pybin_add_zip_loop_dirs_anc (now : Nat) (lib : List (String × String))
    (filt : String → Bool) (excl : List String) : ∀ (ns : List String)
    (st : PybinState) (name : String), name ∈ ns → filt name = true →
    is_python_excluded_path name excl = false →
    ∀ {d : Path}, IsAncestorOf d (pathComponents name) →
    d ∈ (pybin_add_zip_loop now lib filt excl true ns st).dirs
  | [], _, _, hm, _, _, _, _ => absurd hm (List.not_mem_nil _)
  | n' :: rest, st, name, hm, hf, hexcl, d, hanc => by
    rcases List.mem_cons.mp hm with he | hm'
    · subst he
      rw [pybin_add_zip_loop, if_pos (by simp [hf, hexcl])]
      refine pybin_add_zip_loop_dirs_mono now lib filt excl true rest _ ?_
      simp only [if_pos]
      exact (update_init_py_dirs_dirs_mem name st.dirs st.markers d).mpr
        (Or.inl (mem_dirAncestors_of_ancestor hanc))
    · by_cases hc : (filt n' && !(is_python_excluded_path n' excl)) = true
      · rw [pybin_add_zip_loop, if_pos hc]
        exact pybin_add_zip_loop_dirs_anc now lib filt excl rest _ name hm' hf hexcl hanc
      · rw [pybin_add_zip_loop, if_neg hc]
        exact pybin_add_zip_loop_dirs_anc now lib filt excl rest st name hm' hf hexcl hanc

theorem pybin_add_zip_loop_untracked (now : Nat) (lib : List (String × String))
    (filt : String → Bool) (excl : List String) : ∀ (ns : List String)
    (st : PybinState),
    (pybin_add_zip_loop now lib filt excl false ns st).dirs = st.dirs
    ∧ (pybin_add_zip_loop now lib filt excl false ns st).markers = st.markers
  | [], st => ⟨rfl, rfl⟩
  | name :: rest, st => by
    by_cases hc : (filt name && !(is_python_excluded_path name excl)) = true
    · rw [pybin_add_zip_loop, if_pos hc]
      exact pybin_add_zip_loop_untracked now lib filt excl rest _
    · rw [pybin_add_zip_loop, if_neg hc]
      exact pybin_add_zip_loop_untracked now lib filt excl rest st

/-! ## Process-level lemmas -/

theorem pybin_process_append (fs : String → String) (mtime : String → Nat)
    (now : Nat) (excl : List String) : ∀ (l1 l2 : List PyArg) (st : PybinState),
    pybin_process fs mtime now excl (l1 ++ l2) st
      = match pybin_process fs mtime now excl l1 st with
        | .error e => .error e
        | .ok st1 => pybin_process fs mtime now excl l2 st1
  | [], _, _ => rfl
  | a :: rest, l2, st => by
    obtain ⟨nm, dat⟩ := a
    rw [List.cons_append]
    by_cases h1 : endswith nm ".pylib" = true
    · cases dat with
      | pylib bd srcs =>
        simp only [pybin_process, h1, if_true]
        exact pybin_process_append fs mtime now excl rest l2 _
      | zip es => simp only [pybin_process, h1, if_true]
    · by_cases h2 : endswith nm ".egg" = true
      · cases dat with
        | pylib bd srcs =>
          simp only [pybin_process, h1, h2, Bool.false_eq_true, if_false, if_true]
        | zip es =>
          simp only [pybin_process, h1, h2, Bool.false_eq_true, if_false, if_true]
          exact pybin_process_append fs mtime now excl rest l2 _
      · by_cases h3 : endswith nm ".whl" = true
        · cases dat with
          | pylib bd srcs =>
            simp only [pybin_process, h1, h2, h3, Bool.false_eq_true, if_false, if_true]
          | zip es =>
            simp only [pybin_process, h1, h2, h3, Bool.false_eq_true, if_false, if_true]
            exact pybin_process_append fs mtime now excl rest l2 _
        · simp only [pybin_process, h1, h2, h3, Bool.false_eq_true, if_false]

theorem pybin_process_dirs_mono (fs : String → String) (mtime : String → Nat)
    (now : Nat) (excl : List String) : ∀ (args : List PyArg) (st st' : PybinState)
    (d : Path), pybin_process fs mtime now excl args st = .ok st' →
    d ∈ st.dirs → d ∈ st'.dirs
  | [], st, st', d, h, hd => by
    simp only [pybin_process, Except.ok.injEq] at h
    exact h ▸ hd
  | a :: rest, st, st', d, h, hd => by
    obtain ⟨nm, dat⟩ := a
    simp only [pybin_process] at h
    by_cases h1 : endswith nm ".pylib" = true
    · rw [if_pos h1] at h
      cases dat with
      | pylib bd srcs =>
        exact pybin_process_dirs_mono fs mtime now excl rest _ st' d h
          (pybin_add_pylib_dirs_mono fs mtime bd excl srcs st hd)
      | zip es => exact absurd h (by simp)
    · rw [if_neg (by simpa using h1)] at h
      by_cases h2 : endswith nm ".egg" = true
      · rw [if_pos h2] at h
        cases dat with
        | pylib bd srcs => exact absurd h (by simp)
        | zip es =>
          refine pybin_process_dirs_mono fs mtime now excl rest _ st' d h ?_
          rw [pybin_add_egg, pybin_add_zip,
            (pybin_add_zip_loop_untracked now es egg_filter excl _ st).1]
          exact hd
      · rw [if_neg (by simpa using h2)] at h
        by_cases h3 : endswith nm ".whl" = true
        · rw [if_pos h3] at h
          cases dat with
          | pylib bd srcs => exact absurd h (by simp)
          | zip es =>
            exact pybin_process_dirs_mono fs mtime now excl rest _ st' d h
              (pybin_add_zip_loop_dirs_mono now es whl_filter excl true _ st hd)
        · rw [if_neg (by simpa using h3)] at h
          exact absurd h (by simp)

/-- Every directory recorded in `dirs_with_init_py` was recorded while writing
an entry whose basename is `__init__.py` in that directory. -/
def markers_inv (st : PybinState) : Prop :=
  ∀ d ∈ st.markers, ∃ e, e ∈ st.entries
    ∧ (pathComponents e.name).dropLast = d
    ∧ (pathComponents e.name).getLastD "" = "__init__.py"

theorem markers_inv_update (st : PybinState) (arc content : String) (t : Nat)
    (h : markers_inv st) :
    markers_inv ⟨st.entries ++ [⟨arc, content, t⟩],
      (update_init_py_dirs arc st.dirs st.markers).1,
      (update_init_py_dirs arc st.dirs st.markers).2⟩ := by
  intro d hd
  unfold update_init_py_dirs at hd
  simp only at hd
  by_cases hb : (pathComponents arc).getLastD "" = "__init__.py"
  · rw [if_pos hb] at hd
    rcases mem_insertSet.mp hd with he | hold
    · exact ⟨⟨arc, content, t⟩,
        List.mem_append_right _ (List.mem_singleton.mpr rfl), he.symm, hb⟩
    · obtain ⟨e, he, h1, h2⟩ := h d hold
      exact ⟨e, List.mem_append_left _ he, h1, h2⟩
  · rw [if_neg hb] at hd
    obtain ⟨e, he, h1, h2⟩ := h d hd
    exact ⟨e, List.mem_append_left _ he, h1, h2⟩

theorem markers_inv_grow {st st' : PybinState}
    (hm : st'.markers = st.markers)
    (he : ∀ e ∈ st.entries, e ∈ st'.entries)
    (h : markers_inv st) : markers_inv st' := by
  intro d hd
  obtain ⟨e, hee, h1, h2⟩ := h d (hm ▸ hd)
  exact ⟨e, he e hee, h1, h2⟩

theorem pybin_add_pylib_markers_inv (fs : String → String) (mtime : String → Nat)
    (bd : String) (excl : List String) : ∀ (srcs : List (String × String))
    (st : PybinState), markers_inv st →
    markers_inv (pybin_add_pylib fs mtime bd excl srcs st)
  | [], _, h => h
  | sd :: rest, st, h => by
    by_cases hx : is_python_excluded_path (relpath sd.1 bd) excl = true
    · rw [pybin_add_pylib, if_pos hx]
      exact pybin_add_pylib_markers_inv fs mtime bd excl rest st h
    · rw [pybin_add_pylib, if_neg hx]
      exact pybin_add_pylib_markers_inv fs mtime bd excl rest _
        (markers_inv_update st (relpath sd.1 bd) (fs sd.1) (mtime sd.1) h)

theorem pybin_add_zip_loop_markers_inv (now : Nat) (lib : List (String × String))
    (filt : String → Bool) (excl : List String) (track : Bool) :
    ∀ (ns : List String) (st : PybinState), markers_inv st →
    markers_inv (pybin_add_zip_loop now lib filt excl track ns st)
  | [], _, h => h
  | name :: rest, st, h => by
    by_cases hc : (filt name && !(is_python_excluded_path name excl)) = true
    · rw [pybin_add_zip_loop, if_pos hc]
      refine pybin_add_zip_loop_markers_inv now lib filt excl track rest _ ?_
      cases track with
      | true => exact markers_inv_update st name (zip_read lib name) now h
      | false =>
        refine markers_inv_grow ?_ ?_ h
        · rfl
        · exact fun e he => List.mem_append_left _ he
    · rw [pybin_add_zip_loop, if_neg hc]
      exact pybin_add_zip_loop_markers_inv now lib filt excl track rest st h

theorem pybin_process_markers_inv (fs : String → String) (mtime : String → Nat)
    (now : Nat) (excl : List String) : ∀ (args : List PyArg) (st st' : PybinState),
    pybin_process fs mtime now excl args st = .ok st' → markers_inv st →
    markers_inv st'
  | [], st, st', h, hi => by
    simp only [pybin_process, Except.ok.injEq] at h
    exact h ▸ hi
  | a :: rest, st, st', h, hi => by
    obtain ⟨nm, dat⟩ := a
    simp only [pybin_process] at h
    by_cases h1 : endswith nm ".pylib" = true
    · rw [if_pos h1] at h
      cases dat with
      | pylib bd srcs =>
        exact pybin_process_markers_inv fs mtime now excl rest _ st' h
          (pybin_add_pylib_markers_inv fs mtime bd excl srcs st hi)
      | zip es => exact absurd h (by simp)
    · rw [if_neg (by simpa using h1)] at h
      by_cases h2 : endswith nm ".egg" = true
      · rw [if_pos h2] at h
        cases dat with
        | pylib bd srcs => exact absurd h (by simp)
        | zip es =>
          exact pybin_process_markers_inv fs mtime now excl rest _ st' h
            (pybin_add_zip_loop_markers_inv now es egg_filter excl false _ st hi)
      · rw [if_neg (by simpa using h2)] at h
        by_cases h3 : endswith nm ".whl" = true
        · rw [if_pos h3] at h
          cases dat with
          | pylib bd srcs => exact absurd h (by simp)
          | zip es =>
            exact pybin_process_markers_inv fs mtime now excl rest _ st' h
              (pybin_add_zip_loop_markers_inv now es whl_filter excl true _ st hi)
        · rw [if_neg (by simpa using h3)] at h
          exact absurd h (by simp)

/-- Inversion of a successful `generate_python_binary` run. -/
theorem generate_python_binary_ok_inv (fs : String → String)
    (mtime : String → Nat) (now : Nat) (basedir exclusions mainentry : String)
    (args : List PyArg) (out : PybinOutput)
    (hok : generate_python_binary fs mtime now basedir exclusions mainentry args
      = .ok out) :
    ∃ st, pybin_process fs mtime now (pySplit exclusions ',') args ⟨[], [], []⟩
        = .ok st
      ∧ out.dirs = st.dirs ∧ out.markers = st.markers
      ∧ out.entries = st.entries
          ++ (sortPaths (st.dirs.filter (fun d => !(decide (d ∈ st.markers))))).map
              (fun d => (⟨joinPath d ++ "/__init__.py", "", now⟩ : Entry))
          ++ [⟨"__init__.py", "", now⟩] := by
  rw [generate_python_binary] at hok
  cases hp : pybin_process fs mtime now (pySplit exclusions ',') args ⟨[], [], []⟩ with
  | error e => rw [hp] at hok; exact absurd hok (by simp)
  | ok st =>
    rw [hp] at hok
    simp only [Except.ok.injEq] at hok
    exact ⟨st, rfl, by rw [← hok], by rw [← hok], by rw [← hok]⟩

/-- In a finished bundle, a recorded directory without a recorded marker got
a synthesized empty `__init__.py`. -/
theorem pybin_out_synth (fs : String → String) (mtime : String → Nat)
    (now : Nat) (basedir exclusions mainentry : String) (args : List PyArg)
    (out : PybinOutput)
    (hok : generate_python_binary fs mtime now basedir exclusions mainentry args
      = .ok out) :
    ∀ d, d ∈ out.dirs → d ∉ out.markers →
    (⟨joinPath d ++ "/__init__.py", "", now⟩ : Entry) ∈ out.entries := by
  obtain ⟨st, _, hdirs, hmarkers, hentries⟩ :=
    generate_python_binary_ok_inv fs mtime now basedir exclusions mainentry args
      out hok
  intro d hd hm
  rw [hentries]
  refine List.mem_append_left _ (List.mem_append_right _ ?_)
  refine List.mem_map.mpr ⟨d, ?_, rfl⟩
  refine mem_sortPaths.mpr (List.mem_filter.mpr ⟨hdirs ▸ hd, ?_⟩)
  simp only [Bool.not_eq_eq_eq_not, Bool.not_true, decide_eq_false_iff_not]
  exact fun hc => hm (hmarkers ▸ hc)

/-- C2 (corrected).  After a successful composition, every directory
*recorded by the bookkeeping* (i.e. an ancestor of a non-excluded entry
contributed by a `.pylib` or `.whl` source) carries a namespace marker:
either an original `__init__.py` entry was written in it (when it is in
`dirs_with_init_py`), or a synthesized empty one is appended; the bundle
root always receives one.  The original claim's universal form — *every*
directory containing an entry — fails for directories populated only by
`.egg` entries, which bypass the bookkeeping (see the counterexample). -/
theorem pybin_marker_law (fs : String → String) (mtime : String → Nat)
    (now : Nat) (basedir exclusions mainentry : String) (args : List PyArg)
    (out : PybinOutput)
    (hok : generate_python_binary fs mtime now basedir exclusions mainentry args
      = .ok out) :
    (∀ d ∈ out.dirs,
      (d ∈ out.markers → ∃ e, e ∈ out.entries
        ∧ (pathComponents e.name).dropLast = d
        ∧ (pathComponents e.name).getLastD "" = "__init__.py")
      ∧ (d ∉ out.markers →
        (⟨joinPath d ++ "/__init__.py", "", now⟩ : Entry) ∈ out.entries))
    ∧ (⟨"__init__.py", "", now⟩ : Entry) ∈ out.entries := by
  obtain ⟨st, hp, hdirs, hmarkers, hentries⟩ :=
    generate_python_binary_ok_inv fs mtime now basedir exclusions mainentry args
      out hok
  have hinv : markers_inv st :=
    pybin_process_markers_inv fs mtime now (pySplit exclusions ',') args _ st hp
      (fun d hd => absurd hd (List.not_mem_nil d))
  refine ⟨fun d _ => ⟨fun hm => ?_, fun hm =>
    pybin_out_synth fs mtime now basedir exclusions mainentry args out hok d
      (by assumption) hm⟩, ?_⟩
  · obtain ⟨e, he, h1, h2⟩ := hinv d (hmarkers ▸ hm)
    exact ⟨e, hentries ▸ List.mem_append_left _ (List.mem_append_left _ he), h1, h2⟩
  · rw [hentries]
    exact List.mem_append_right _ (List.mem_singleton.mpr rfl)

/-- Witness for the amended C2: one `.pylib` source contributing
`pkg/mod.py` yields a synthesized `pkg/__init__.py` and the root marker. -/
theorem pybin_marker_law_witness :
    ∃ out, generate_python_binary (fun _ => "c") (fun _ => 0) 0 "" "" "m"
        [⟨"l.pylib", .pylib "b" [("b/pkg/mod.py", "d")]⟩] = .ok out
      ∧ (⟨"pkg/__init__.py", "", 0⟩ : Entry) ∈ out.entries
      ∧ (⟨"__init__.py", "", 0⟩ : Entry) ∈ out.entries :=
  ⟨_, rfl,
    ((pybin_marker_law (fun _ => "c") (fun _ => 0) 0 "" "" "m"
        [⟨"l.pylib", .pylib "b" [("b/pkg/mod.py", "d")]⟩] _ rfl).1
      ["pkg"] (by decide)).2 (by decide),
    (pybin_marker_law (fun _ => "c") (fun _ => 0) 0 "" "" "m"
        [⟨"l.pylib", .pylib "b" [("b/pkg/mod.py", "d")]⟩] _ rfl).2⟩

/-- C2, the counterexample to the claim as stated: an `.egg` input
contributing `pkg/mod.py` updates no bookkeeping, so the composed bundle
holds an entry in directory `pkg` but no `pkg/__init__.py` marker at all —
a directory with entries is left marker-less. -/
theorem pybin_marker_law_counterexample :
    ∃ out, generate_python_binary (fun _ => "") (fun _ => 0) 0 "" "" "m"
        [⟨"a.egg", .zip [("pkg/mod.py", "c")]⟩] = .ok out
      ∧ (∃ e, e ∈ out.entries ∧ e.name = "pkg/mod.py")
      ∧ ¬ ∃ e, e ∈ out.entries ∧ e.name = "pkg/__init__.py" := by
  exact ⟨_, rfl, by decide, by decide⟩

/-! ## C10: ancestor bookkeeping per input format -/

theorem pybin_process_eggs_bookkeeping (fs : String → String)
    (mtime : String → Nat) (now : Nat) (excl : List String) :
    ∀ (args : List PyArg) (st st' : PybinState),
    (∀ a ∈ args, endswith a.name ".pylib" = false ∧ endswith a.name ".egg" = true
      ∧ ∃ es, a.data = PyArgData.zip es) →
    pybin_process fs mtime now excl args st = .ok st' →
    st'.dirs = st.dirs ∧ st'.markers = st.markers
  | [], st, st', _, h => by
    simp only [pybin_process, Except.ok.injEq] at h
    exact ⟨h ▸ rfl, h ▸ rfl⟩
  | a :: rest, st, st', hegg, h => by
    obtain ⟨h1, h2, es, hes⟩ := hegg a (List.mem_cons_self a rest)
    obtain ⟨nm, dat⟩ := a
    simp only at h1 h2 hes
    subst hes
    simp only [pybin_process, h1, h2, Bool.false_eq_true, if_false, if_true] at h
    have ih := pybin_process_eggs_bookkeeping fs mtime now excl rest _ st'
      (fun x hx => hegg x (List.mem_cons_of_mem _ hx)) h
    rw [pybin_add_egg, pybin_add_zip] at ih
    rcases pybin_add_zip_loop_untracked now es egg_filter excl
      (es.map Prod.fst) st with ⟨hd, hm⟩
    exact ⟨ih.1.trans hd, ih.2.trans hm⟩

/-- C10 (confirmed).  Directory bookkeeping in `generate_python_binary` is
transitive over ancestors for tracked formats and absent for eggs:
(1) every ancestor directory `d` (any non-empty proper prefix of the entry
path's components, not just the immediate parent) of a non-excluded entry
contributed by a `.pylib` descriptor is recorded in the final `dirs`, and if
no marker was recorded for `d` a synthesized empty `__init__.py` entry for
`d` is in the bundle; (2) likewise for `.whl` entries passing the wheel
filter; (3) `_pybin_add_egg` leaves `dirs` and `dirs_with_init_py` exactly
unchanged; (4) a run whose inputs are all `.egg` files records no directory
at all, synthesizes no directory marker, and writes exactly the egg entries
plus the root marker. -/
theorem pybin_dir_bookkeeping_by_format :
    (∀ (fs : String → String) (mtime : String → Nat) (now : Nat)
      (basedir exclusions mainentry : String) (pre post : List PyArg)
      (bd nm : String) (srcs : List (String × String)) (out : PybinOutput)
      (sd : String × String),
      generate_python_binary fs mtime now basedir exclusions mainentry
        (pre ++ (⟨nm, .pylib bd srcs⟩ : PyArg) :: post) = .ok out →
      endswith nm ".pylib" = true →
      sd ∈ srcs →
      is_python_excluded_path (relpath sd.1 bd) (pySplit exclusions ',') = false →
      ∀ d, IsAncestorOf d (pathComponents (relpath sd.1 bd)) →
      d ∈ out.dirs
        ∧ (d ∉ out.markers →
            (⟨joinPath d ++ "/__init__.py", "", now⟩ : Entry) ∈ out.entries))
    ∧ (∀ (fs : String → String) (mtime : String → Nat) (now : Nat)
      (basedir exclusions mainentry : String) (pre post : List PyArg)
      (nm : String) (es : List (String × String)) (out : PybinOutput)
      (name : String),
      generate_python_binary fs mtime now basedir exclusions mainentry
        (pre ++ (⟨nm, .zip es⟩ : PyArg) :: post) = .ok out →
      endswith nm ".pylib" = false → endswith nm ".egg" = false →
      endswith nm ".whl" = true →
      name ∈ es.map Prod.fst → whl_filter name = true →
      is_python_excluded_path name (pySplit exclusions ',') = false →
      ∀ d, IsAncestorOf d (pathComponents name) →
      d ∈ out.dirs
        ∧ (d ∉ out.markers →
            (⟨joinPath d ++ "/__init__.py", "", now⟩ : Entry) ∈ out.entries))
    ∧ (∀ (now : Nat) (lib : List (String × String)) (excl : List String)
      (st : PybinState),
      (pybin_add_egg now lib excl st).dirs = st.dirs
        ∧ (pybin_add_egg now lib excl st).markers = st.markers)
    ∧ (∀ (fs : String → String) (mtime : String → Nat) (now : Nat)
      (basedir exclusions mainentry : String) (args : List PyArg)
      (out : PybinOutput),
      (∀ a ∈ args, endswith a.name ".pylib" = false
        ∧ endswith a.name ".egg" = true ∧ ∃ es, a.data = PyArgData.zip es) →
      generate_python_binary fs mtime now basedir exclusions mainentry args
        = .ok out →
      out.dirs = [] ∧ out.markers = []
        ∧ out.entries = args.flatMap
            (pybin_arg_contrib fs mtime now (pySplit exclusions ','))
            ++ [⟨"__init__.py", "", now⟩]) := by
  refine ⟨?_, ?_, ?_, ?_⟩
  · intro fs mtime now basedir exclusions mainentry pre post bd nm srcs out sd
      hok hnm hsd hexcl d hanc
    obtain ⟨st, hp, hdirs, hmarkers, _⟩ :=
      generate_python_binary_ok_inv fs mtime now basedir exclusions mainentry _
        out hok
    rw [pybin_process_append] at hp
    cases hpre : pybin_process fs mtime now (pySplit exclusions ',') pre
        ⟨[], [], []⟩ with
    | error e => rw [hpre] at hp; exact absurd hp (by simp)
    | ok st1 =>
      rw [hpre] at hp
      simp only [pybin_process, hnm, if_true] at hp
      have hmem : d ∈ st.dirs :=
        pybin_process_dirs_mono fs mtime now (pySplit exclusions ',') post _ st d hp
          (pybin_add_pylib_dirs_anc fs mtime bd (pySplit exclusions ',') srcs st1
            sd hsd hexcl hanc)
      exact ⟨hdirs ▸ hmem, fun hm =>
        pybin_out_synth fs mtime now basedir exclusions mainentry _ out hok d
          (hdirs ▸ hmem) hm⟩
  · intro fs mtime now basedir exclusions mainentry pre post nm es out name
      hok h1 h2 h3 hname hfilt hexcl d hanc
    obtain ⟨st, hp, hdirs, hmarkers, _⟩ :=
      generate_python_binary_ok_inv fs mtime now basedir exclusions mainentry _
        out hok
    rw [pybin_process_append] at hp
    cases hpre : pybin_process fs mtime now (pySplit exclusions ',') pre
        ⟨[], [], []⟩ with
    | error e => rw [hpre] at hp; exact absurd hp (by simp)
    | ok st1 =>
      rw [hpre] at hp
      simp only [pybin_process, h1, h2, h3, Bool.false_eq_true, if_false,
        if_true] at hp
      have hmem : d ∈ st.dirs :=
        pybin_process_dirs_mono fs mtime now (pySplit exclusions ',') post _ st d hp
          (pybin_add_zip_loop_dirs_anc now es whl_filter (pySplit exclusions ',')
            (es.map Prod.fst) st1 name hname hfilt hexcl hanc)
      exact ⟨hdirs ▸ hmem, fun hm =>
        pybin_out_synth fs mtime now basedir exclusions mainentry _ out hok d
          (hdirs ▸ hmem) hm⟩
  · intro now lib excl st
    rw [pybin_add_egg, pybin_add_zip]
    exact pybin_add_zip_loop_untracked now lib egg_filter excl (lib.map Prod.fst) st
  · intro fs mtime now basedir exclusions mainentry args out hegg hok
    obtain ⟨st, hp, hdirs, hmarkers, hentries⟩ :=
      generate_python_binary_ok_inv fs mtime now basedir exclusions mainentry args
        out hok
    obtain ⟨hd0, hm0⟩ := pybin_process_eggs_bookkeeping fs mtime now
      (pySplit exclusions ',') args _ st hegg hp
    have hdirs0 : out.dirs = [] := by rw [hdirs, hd0]
    have hmarkers0 : out.markers = [] := by rw [hmarkers, hm0]
    refine ⟨hdirs0, hmarkers0, ?_⟩
    have hent := pybin_process_entries fs mtime now (pySplit exclusions ',') args
      _ st hp
    rw [hentries, hent, hd0]
    simp [sortPaths]

/-- Witness for C10: a `.pylib` entry at `pkg/sub/mod.py` records the
grandparent directory `pkg` (not only the parent `pkg/sub`) and synthesizes
`pkg/__init__.py`; an `.egg`-only run records nothing and synthesizes no
directory marker. -/
theorem pybin_dir_bookkeeping_by_format_witness :
    (∃ out, generate_python_binary (fun _ => "c") (fun _ => 0) 0 "" "" "m"
        ([] ++ (⟨"l.pylib", .pylib "b" [("b/pkg/sub/mod.py", "d")]⟩ : PyArg) :: [])
        = .ok out
      ∧ (["pkg"] : Path) ∈ out.dirs
      ∧ (⟨"pkg/__init__.py", "", 0⟩ : Entry) ∈ out.entries)
    ∧ (∃ out, generate_python_binary (fun _ => "") (fun _ => 0) 0 "" "" "m"
        [⟨"a.egg", .zip [("pkg/mod.py", "c")]⟩] = .ok out
      ∧ out.dirs = [] ∧ out.markers = []) := by
  constructor
  · refine ⟨_, rfl, ?_, ?_⟩
    · exact (pybin_dir_bookkeeping_by_format.1 (fun _ => "c") (fun _ => 0) 0
        "" "" "m" [] [] "b" "l.pylib" [("b/pkg/sub/mod.py", "d")] _
        ("b/pkg/sub/mod.py", "d") rfl (by decide) (by decide) (by decide)
        ["pkg"] ⟨by decide, ["sub", "mod.py"], by decide, by decide⟩).1
    · exact (pybin_dir_bookkeeping_by_format.1 (fun _ => "c") (fun _ => 0) 0
        "" "" "m" [] [] "b" "l.pylib" [("b/pkg/sub/mod.py", "d")] _
        ("b/pkg/sub/mod.py", "d") rfl (by decide) (by decide) (by decide)
        ["pkg"] ⟨by decide, ["sub", "mod.py"], by decide, by decide⟩).2 (by decide)
  · refine ⟨_, rfl, ?_, ?_⟩
    · exact (pybin_dir_bookkeeping_by_format.2.2.2 (fun _ => "") (fun _ => 0) 0
        "" "" "m" [⟨"a.egg", .zip [("pkg/mod.py", "c")]⟩] _
        (by intro a ha; simp at ha; subst ha; exact ⟨by decide, by decide, _, rfl⟩)
        rfl).1
    · exact (pybin_dir_bookkeeping_by_format.2.2.2 (fun _ => "") (fun _ => 0) 0
        "" "" "m" [⟨"a.egg", .zip [("pkg/mod.py", "c")]⟩] _
        (by intro a ha; simp at ha; subst ha; exact ⟨by decide, by decide, _, rfl⟩)
        rfl).2.1

/-! ## Determinism up to timestamps (C5) -/

theorem stripEntries_append (l1 l2 : List Entry) :
    stripEntries (l1 ++ l2) = stripEntries l1 ++ stripEntries l2 :=
  List.map_append _ l1 l2

theorem stripEntries_snoc (l1 l2 : List Entry) (n c : String) (t1 t2 : Nat)
    (h : stripEntries l1 = stripEntries l2) :
    stripEntries (l1 ++ [⟨n, c, t1⟩]) = stripEntries (l2 ++ [⟨n, c, t2⟩]) := by
  simp only [stripEntries, List.map_append, List.map_cons, List.map_nil] at h ⊢
  rw [h]

theorem stripSt_parts {s t : PybinState} (h : stripSt s = stripSt t) :
    stripEntries s.entries = stripEntries t.entries
      ∧ s.dirs = t.dirs ∧ s.markers = t.markers := by
  unfold stripSt at h
  exact ⟨congrArg (fun p => p.1) h,
    congrArg (fun p => p.2.1) h, congrArg (fun p => p.2.2) h⟩

theorem stripSt_ext {s t : PybinState}
    (h1 : stripEntries s.entries = stripEntries t.entries)
    (h2 : s.dirs = t.dirs) (h3 : s.markers = t.markers) :
    stripSt s = stripSt t := by
  unfold stripSt
  rw [h1, h2, h3]

theorem pybin_add_pylib_stripSt (fs : String → String) (mtime : String → Nat)
    (bd : String) (excl : List String) : ∀ (srcs : List (String × String))
    (s t : PybinState), stripSt s = stripSt t →
    stripSt (pybin_add_pylib fs mtime bd excl srcs s)
      = stripSt (pybin_add_pylib fs mtime bd excl srcs t)
  | [], _, _, h => h
  | sd :: rest, s, t, h => by
    obtain ⟨h1, h2, h3⟩ := stripSt_parts h
    by_cases hx : is_python_excluded_path (relpath sd.1 bd) excl = true
    · rw [pybin_add_pylib, if_pos hx, pybin_add_pylib, if_pos hx]
      exact pybin_add_pylib_stripSt fs mtime bd excl rest s t h
    · rw [pybin_add_pylib, if_neg hx, pybin_add_pylib, if_neg hx]
      refine pybin_add_pylib_stripSt fs mtime bd excl rest _ _ ?_
      refine stripSt_ext ?_ ?_ ?_ <;>
        simp only [h2, h3, stripEntries_append, h1]

theorem pybin_add_zip_loop_stripSt (lib : List (String × String))
    (filt : String → Bool) (excl : List String) (track : Bool) (n1 n2 : Nat) :
    ∀ (ns : List String) (s t : PybinState), stripSt s = stripSt t →
    stripSt (pybin_add_zip_loop n1 lib filt excl track ns s)
      = stripSt (pybin_add_zip_loop n2 lib filt excl track ns t)
  | [], _, _, h => h
  | name :: rest, s, t, h => by
    obtain ⟨h1, h2, h3⟩ := stripSt_parts h
    by_cases hc : (filt name && !(is_python_excluded_path name excl)) = true
    · rw [pybin_add_zip_loop, if_pos hc, pybin_add_zip_loop, if_pos hc]
      refine pybin_add_zip_loop_stripSt lib filt excl track n1 n2 rest _ _ ?_
      cases track with
      | true =>
        exact stripSt_ext
          (stripEntries_snoc s.entries t.entries name (zip_read lib name) n1 n2 h1)
          (by rw [h2, h3]) (by rw [h2, h3])
      | false =>
        exact stripSt_ext
          (stripEntries_snoc s.entries t.entries name (zip_read lib name) n1 n2 h1)
          h2 h3
    · rw [pybin_add_zip_loop, if_neg hc, pybin_add_zip_loop, if_neg hc]
      exact pybin_add_zip_loop_stripSt lib filt excl track n1 n2 rest s t h

theorem pybin_process_stripSt (fs : String → String) (mtime : String → Nat)
    (excl : List String) (n1 n2 : Nat) : ∀ (args : List PyArg)
    (s t : PybinState), stripSt s = stripSt t →
    (pybin_process fs mtime n1 excl args s).map stripSt
      = (pybin_process fs mtime n2 excl args t).map stripSt
  | [], s, t, h => by simp only [pybin_process, Except.map, h]
  | a :: rest, s, t, h => by
    obtain ⟨nm, dat⟩ := a
    by_cases h1 : endswith nm ".pylib" = true
    · cases dat with
      | pylib bd srcs =>
        simp only [pybin_process, h1, if_true]
        exact pybin_process_stripSt fs mtime excl n1 n2 rest _ _
          (pybin_add_pylib_stripSt fs mtime bd excl srcs s t h)
      | zip es => simp only [pybin_process, h1, if_true, Except.map]
    · by_cases h2 : endswith nm ".egg" = true
      · cases dat with
        | pylib bd srcs =>
          simp only [pybin_process, h1, h2, Bool.false_eq_true, if_false, if_true,
            Except.map]
        | zip es =>
          simp only [pybin_process, h1, h2, Bool.false_eq_true, if_false, if_true]
          exact pybin_process_stripSt fs mtime excl n1 n2 rest _ _
            (pybin_add_zip_loop_stripSt es egg_filter excl false n1 n2
              (es.map Prod.fst) s t h)
      · by_cases h3 : endswith nm ".whl" = true
        · cases dat with
          | pylib bd srcs =>
            simp only [pybin_process, h1, h2, h3, Bool.false_eq_true, if_false,
              if_true, Except.map]
          | zip es =>
            simp only [pybin_process, h1, h2, h3, Bool.false_eq_true, if_false,
              if_true]
            exact pybin_process_stripSt fs mtime excl n1 n2 rest _ _
              (pybin_add_zip_loop_stripSt es whl_filter excl true n1 n2
                (es.map Prod.fst) s t h)
        · simp only [pybin_process, h1, h2, h3, Bool.false_eq_true, if_false,
            Except.map]

theorem onejar_loader_loop_strip (j1 j2 : JarFile) (n1 n2 : Nat)
    (hj : j1.entries = j2.entries) : ∀ (ns : List String)
    (a b : List Entry × List String),
    stripEntries a.1 = stripEntries b.1 → a.2 = b.2 →
    stripEntries (onejar_loader_loop n1 j1 ns a).1
        = stripEntries (onejar_loader_loop n2 j2 ns b).1
      ∧ (onejar_loader_loop n1 j1 ns a).2 = (onejar_loader_loop n2 j2 ns b).2
  | [], _, _, h1, h2 => ⟨h1, h2⟩
  | name :: rest, a, b, h1, h2 => by
    by_cases hm : endswith (pyLower name) "manifest.mf" = true
    · simp only [onejar_loader_loop, hm, not_true, Bool.false_eq_true, if_false,
        ite_not]
      exact onejar_loader_loop_strip j1 j2 n1 n2 hj rest a b h1 h2
    · simp only [onejar_loader_loop, hm, Bool.false_eq_true, not_false_iff,
        if_true, ite_not]
      refine onejar_loader_loop_strip j1 j2 n1 n2 hj rest _ _ ?_ (by rw [h2])
      rw [hj]
      exact stripEntries_snoc a.1 b.1 name (zip_read j2.entries name) n1 n2 h1

theorem onejar_flatten_loop_strip (j1 j2 : JarFile) (n1 n2 : Nat)
    (hj : j1.entries = j2.entries) : ∀ (ns : List String)
    (a b : List String × List Entry),
    a.1 = b.1 → stripEntries a.2 = stripEntries b.2 →
    (onejar_flatten_loop n1 j1 ns a).1 = (onejar_flatten_loop n2 j2 ns b).1
      ∧ stripEntries (onejar_flatten_loop n1 j1 ns a).2
        = stripEntries (onejar_flatten_loop n2 j2 ns b).2
  | [], _, _, h1, h2 => ⟨h1, h2⟩
  | name :: rest, a, b, h1, h2 => by
    by_cases hs : (endswith name ".class" || startswith (pyUpper name) "META-INF") = true
    · rw [onejar_flatten_loop, if_pos hs, onejar_flatten_loop, if_pos hs]
      exact onejar_flatten_loop_strip j1 j2 n1 n2 hj rest a b h1 h2
    · rw [onejar_flatten_loop, if_neg hs, onejar_flatten_loop, if_neg hs]
      by_cases hc : name ∈ a.1
      · have hc2 : name ∈ b.1 := h1 ▸ hc
        rw [if_pos hc, if_pos hc2]
        exact onejar_flatten_loop_strip j1 j2 n1 n2 hj rest a b h1 h2
      · have hc2 : name ∉ b.1 := h1 ▸ hc
        rw [if_neg hc, if_neg hc2]
        refine onejar_flatten_loop_strip j1 j2 n1 n2 hj rest _ _ (by rw [h1]) ?_
        rw [hj]
        exact stripEntries_snoc a.2 b.2 name (zip_read j2.entries name) n1 n2 h2

theorem onejar_flatten_strip (n1 n2 : Nat) : ∀ (jars : List JarFile)
    (a b : List String × List Entry),
    a.1 = b.1 → stripEntries a.2 = stripEntries b.2 →
    (onejar_flatten n1 jars a).1 = (onejar_flatten n2 jars b).1
      ∧ stripEntries (onejar_flatten n1 jars a).2
        = stripEntries (onejar_flatten n2 jars b).2
  | [], _, _, h1, h2 => ⟨h1, h2⟩
  | jar :: rest, a, b, h1, h2 => by
    simp only [onejar_flatten]
    have h := onejar_flatten_loop_strip jar jar n1 n2 rfl
      (jar.entries.map Prod.fst) a b h1 h2
    exact onejar_flatten_strip n1 n2 rest _ _ h.1 h.2

/-- C5 (corrected).  Each composer's output is a function of its inputs *and
of the run's clock reading*: with equal clock readings the outputs are
byte-identical (the models are functions), and across different clock
readings the outputs agree exactly up to the entry timestamps — the
(name, content) sequence of every composed archive, the directory
bookkeeping, and the executable bit are all clock-independent, for the
package composer, the python binary composer, and the one-jar composer. -/
theorem composer_determinism_up_to_timestamps :
    (∀ (md5 fs : String → String) (mtime : String → Nat) (n1 n2 : Nat)
      (args : List String),
      (generate_package md5 fs mtime n1 args).map stripEntries
        = (generate_package md5 fs mtime n2 args).map stripEntries)
    ∧ (∀ (fs : String → String) (mtime : String → Nat) (n1 n2 : Nat)
      (basedir exclusions mainentry : String) (args : List PyArg),
      (generate_python_binary fs mtime n1 basedir exclusions mainentry args).map
          stripOut
        = (generate_python_binary fs mtime n2 basedir exclusions mainentry
            args).map stripOut)
    ∧ (∀ (mtime : String → Nat) (n1 n2 : Nat) (mc : String)
      (bootjar main_jar : JarFile) (jars : List JarFile),
      stripEntries (generate_one_jar mtime n1 mc bootjar main_jar jars)
        = stripEntries (generate_one_jar mtime n2 mc bootjar main_jar jars)) := by
  refine ⟨?_, ?_, ?_⟩
  · intro md5 fs mtime n1 n2 args
    match args with
    | [] => rfl
    | path :: manifest =>
      rw [generate_package, generate_package]
      by_cases hodd : manifest.length % 2 ≠ 0
      · rw [if_pos hodd, if_pos hodd]
      · rw [if_neg hodd, if_neg hodd]
        by_cases hzip : endswith path ".zip" = true
        · rw [if_pos hzip, if_pos hzip]
          simp [Except.map, generate_zip_package, stripEntries_append, stripEntries]
        · rw [if_neg hzip, if_neg hzip]
          cases htar : tar_suffix path with
          | none => rfl
          | some sfx =>
            simp [Except.map, generate_tar_package, stripEntries_append,
              stripEntries]
  · intro fs mtime n1 n2 basedir exclusions mainentry args
    have hp := pybin_process_stripSt fs mtime (pySplit exclusions ',') n1 n2 args
      ⟨[], [], []⟩ ⟨[], [], []⟩ rfl
    rw [generate_python_binary, generate_python_binary]
    cases h1 : pybin_process fs mtime n1 (pySplit exclusions ',') args
        ⟨[], [], []⟩ with
    | error e =>
      cases h2 : pybin_process fs mtime n2 (pySplit exclusions ',') args
          ⟨[], [], []⟩ with
      | error e' =>
        rw [h1, h2] at hp
        simp only [Except.map, Except.error.injEq] at hp
        simp [hp]
      | ok t => rw [h1, h2] at hp; exact absurd hp (by simp [Except.map])
    | ok s =>
      cases h2 : pybin_process fs mtime n2 (pySplit exclusions ',') args
          ⟨[], [], []⟩ with
      | error e' => rw [h1, h2] at hp; exact absurd hp (by simp [Except.map])
      | ok t =>
        rw [h1, h2] at hp
        simp only [Except.map, Except.ok.injEq] at hp
        obtain ⟨he, hd, hm⟩ := stripSt_parts hp
        simp only [Except.map, Except.ok.injEq, stripOut]
        rw [hd, hm]
        simp only [Prod.mk.injEq, and_true, true_and]
        simp only [stripEntries_append, he]
        simp [stripEntries]
  · intro mtime n1 n2 mc bootjar main_jar jars
    rw [generate_one_jar, generate_one_jar]
    have hl := onejar_loader_loop_strip bootjar bootjar n1 n2 rfl
      (bootjar.entries.map Prod.fst) ([], []) ([], []) rfl rfl
    have hf := onejar_flatten_strip n1 n2 (main_jar :: jars)
      ((onejar_loader n1 bootjar).2, []) ((onejar_loader n2 bootjar).2, [])
      (by unfold onejar_loader; exact hl.2) rfl
    simp only [stripEntries_append]
    rw [hf.2]
    unfold onejar_loader at hl ⊢
    rw [hl.1]
    simp [stripEntries]

/-- C5, the counterexample to the claim as stated: identical inputs,
exclusions and ordering, but two runs at different clock readings (zip entry
timestamps are taken from the current local time by `zipfile.writestr`)
produce different archives and different bytes, for both the package
composer and the python binary composer. -/
theorem composer_determinism_counterexample :
    generate_zip_package (fun s => s) (fun _ => "A") (fun _ => 3) 0 ["s"] ["d"]
        ≠ generate_zip_package (fun s => s) (fun _ => "A") (fun _ => 3) 1 ["s"] ["d"]
      ∧ serializeArchive
            (generate_zip_package (fun s => s) (fun _ => "A") (fun _ => 3) 0 ["s"] ["d"])
          ≠ serializeArchive
            (generate_zip_package (fun s => s) (fun _ => "A") (fun _ => 3) 1 ["s"] ["d"])
      ∧ (generate_python_binary (fun _ => "") (fun _ => 0) 0 "" "" "m"
            [⟨"a.egg", .zip [("x", "c")]⟩]).toOption.map (fun o => o.bytes)
          ≠ (generate_python_binary (fun _ => "") (fun _ => 0) 1 "" "" "m"
            [⟨"a.egg", .zip [("x", "c")]⟩]).toOption.map (fun o => o.bytes) := by
  refine ⟨by decide, by decide, by decide⟩

end BladeBuiltinTools
